import Mathlib

/-!
Shallow embedding of the candidate-matching core of the repository
(`src/app/lib/skillNormalizer.ts`, `src/app/lib/scoringEngine.ts`,
`src/app/lib/matchingService.ts` and the static skill registry in
`src/app/data/skills.ts`), together with proofs settling the claims about it.

Conventions of the embedding:
* JavaScript `number` is modelled by `ℚ` (all arithmetic used by the engine is
  `+ - * / min max Math.round`, which is exact on rationals).
* `Math.round x` is `⌊x + 1/2⌋` (round half toward +∞), as in JavaScript.
* Strings are Lean `String`s; `toLowerCase`, `trim`, `includes` and
  `split(/\s+/)` are re-implemented character-wise below so that they both
  match the JavaScript behaviour on the data in question and reduce in the
  kernel.
* A JavaScript `Map` is modelled by a list of key/value pairs onto which each
  `set` prepends; a lookup takes the most recent binding, which is exactly
  `Map.set`'s overwrite semantics.
* `Array.prototype.sort` (required to be stable since ES2019) is modelled by
  `List.insertionSort`, which is stable; a stable sort is extensionally
  determined by the comparator, so this is faithful.
* Fallible code (`throw` / `try` / `catch`) is modelled with `Except`.
-/

/-! ### Character / string primitives -/

/-- `String.toLowerCase`, done on the character list so it reduces. -/
def jsToLower (s : String) : String := ⟨s.data.map Char.toLower⟩

def isWsChar (c : Char) : Bool := c.isWhitespace

/-- `String.prototype.trim`: strip whitespace from both ends. -/
def jsTrim (s : String) : String :=
  ⟨((s.data.dropWhile isWsChar).reverse.dropWhile isWsChar).reverse⟩

/-- Does `needle` occur as a contiguous sublist of `hay`? -/
def charContains (needle : List Char) : List Char → Bool
  | [] => needle.isEmpty
  | c :: t => needle.isPrefixOf (c :: t) || charContains needle t

/-- `hay.includes(needle)` of JavaScript. -/
def jsIncludes (hay needle : String) : Bool := charContains needle.data hay.data

/-- Worker for `split(/\s+/)`: `some acc` means we are inside a token whose
reversed characters are `acc`; `none` means we are inside a whitespace run. -/
def jsSplitWsAux : List Char → Option (List Char) → List String
  | [], some acc => [⟨acc.reverse⟩]
  | [], none => [⟨[]⟩]
  | c :: cs, some acc =>
    if isWsChar c then ⟨acc.reverse⟩ :: jsSplitWsAux cs none
    else jsSplitWsAux cs (some (c :: acc))
  | c :: cs, none =>
    if isWsChar c then jsSplitWsAux cs none
    else jsSplitWsAux cs (some [c])

/-- `text.split(/\s+/)`: split on maximal whitespace runs (a leading or
trailing run contributes an empty token, as in JavaScript). -/
def jsSplitWs (s : String) : List String := jsSplitWsAux s.data (some [])

/-! ### Numeric primitives -/

/-- JavaScript `Math.round`. -/
def jsRound (q : ℚ) : ℤ := ⌊q + 1/2⌋

/-- `Math.round(q * 100) / 100`, the 2-decimal presentation rounding used by
`calculateMatchingScore`. -/
def roundTo2 (q : ℚ) : ℚ := (jsRound (q * 100) : ℚ) / 100

/-- Lookup in a prepend-style map: the value of the most recent binding. -/
def lookupFun {α : Type} (l : List (String × α)) (q : String) : Option α :=
  (l.find? (fun p => p.1 == q)).map (fun p => p.2)

/-! ### Data model (`src/app/types/matching.ts`) -/

structure Skill where
  id : String
  canonicalName : String
  aliases : List String
  category : String
  relatedSkills : List String
  difficultyLevel : ℚ
  timeToProficiency : ℚ
deriving DecidableEq

structure Experience where
  id : String
  skillId : String
  duration : ℚ
  complexityLevel : ℚ
  hasLeadershipRole : Bool
  projectDescription : Option String
  technologies : List String
deriving DecidableEq

structure Education where
  degree : String
  institution : String
  graduationYear : ℤ
  field : String
deriving DecidableEq

structure Candidate where
  id : String
  name : String
  email : String
  experience : List Experience
  skills : List String
  education : List Education
  summary : String
deriving DecidableEq

structure JobRequirement where
  skillId : String
  minDuration : ℚ
  requiredLevel : ℚ
  isRequired : Bool
  description : Option String
deriving DecidableEq

structure Job where
  id : String
  title : String
  company : String
  description : String
  requirements : List JobRequirement
  responsibilities : List String
  location : String
  salary : Option String
deriving DecidableEq

structure ExperienceGap where
  skillId : String
  requiredDuration : ℚ
  candidateDuration : ℚ
  gap : ℚ
  learnability : ℚ
deriving DecidableEq

structure ScoreBreakdown where
  matchedSkills : List String
  missingSkills : List String
  relatedSkills : List String
  experienceGaps : List ExperienceGap
  potentialIndicators : List String
  riskFactors : List String
deriving DecidableEq

structure MatchingScore where
  overallScore : ℚ
  skillMatchScore : ℚ
  experienceScore : ℚ
  transferableSkillsScore : ℚ
  potentialScore : ℚ
  breakdown : ScoreBreakdown
deriving DecidableEq

/-! ### Static skill registry (`src/app/data/skills.ts`) -/

def skills : List Skill := [
  ⟨"react", "React", ["ReactJS", "React.js", "ReactJS", "React Native"], "Frontend",
    ["javascript", "typescript", "jsx", "redux", "nextjs"], 3, 6⟩,
  ⟨"javascript", "JavaScript", ["JS", "ES6", "ES2015", "ECMAScript"], "Programming",
    ["typescript", "react", "vue", "angular", "nodejs"], 2, 4⟩,
  ⟨"typescript", "TypeScript", ["TS", "TypeScript"], "Programming",
    ["javascript", "react", "angular", "nodejs"], 3, 3⟩,
  ⟨"vue", "Vue.js", ["Vue", "VueJS", "Vue.js"], "Frontend",
    ["javascript", "typescript", "vuex", "nuxt"], 3, 5⟩,
  ⟨"angular", "Angular", ["AngularJS", "Angular 2+", "Angular"], "Frontend",
    ["typescript", "javascript", "rxjs", "ngrx"], 4, 8⟩,
  ⟨"nodejs", "Node.js", ["NodeJS", "Node", "Node.js"], "Backend",
    ["javascript", "express", "mongodb", "postgresql"], 3, 6⟩,
  ⟨"python", "Python", ["Python 3", "Python"], "Programming",
    ["django", "flask", "fastapi", "pandas", "numpy"], 2, 4⟩,
  ⟨"java", "Java", ["Java 8", "Java 11", "Java"], "Programming",
    ["spring", "hibernate", "maven", "gradle"], 4, 8⟩,
  ⟨"express", "Express.js", ["Express", "ExpressJS", "Express.js"], "Backend",
    ["nodejs", "javascript", "mongodb", "postgresql"], 3, 4⟩,
  ⟨"mongodb", "MongoDB", ["Mongo", "MongoDB"], "Database",
    ["nodejs", "express", "mongoose", "nosql"], 3, 4⟩,
  ⟨"postgresql", "PostgreSQL", ["Postgres", "PostgreSQL"], "Database",
    ["sql", "nodejs", "express", "prisma"], 3, 5⟩,
  ⟨"mysql", "MySQL", ["MySQL", "MariaDB"], "Database",
    ["sql", "php", "nodejs"], 2, 3⟩,
  ⟨"docker", "Docker", ["Docker", "Containerization"], "DevOps",
    ["kubernetes", "aws", "azure", "ci-cd"], 3, 4⟩,
  ⟨"aws", "AWS", ["Amazon Web Services", "AWS Cloud"], "Cloud",
    ["docker", "kubernetes", "terraform", "serverless"], 4, 8⟩,
  ⟨"kubernetes", "Kubernetes", ["K8s", "Kubernetes"], "DevOps",
    ["docker", "aws", "azure", "helm"], 4, 6⟩,
  ⟨"tensorflow", "TensorFlow", ["TensorFlow", "TF"], "AI/ML",
    ["python", "machine-learning", "deep-learning", "keras"], 4, 8⟩,
  ⟨"pytorch", "PyTorch", ["PyTorch", "Torch"], "AI/ML",
    ["python", "machine-learning", "deep-learning"], 4, 7⟩,
  ⟨"jest", "Jest", ["Jest", "Testing"], "Testing",
    ["javascript", "react", "testing-library"], 2, 2⟩,
  ⟨"cypress", "Cypress", ["Cypress", "E2E Testing"], "Testing",
    ["javascript", "testing", "selenium"], 3, 3⟩]

/-! ### Skill normalizer (`src/app/lib/skillNormalizer.ts`) -/

/-- The fixed abbreviation/variant table of `createSkillNormalizerInstance`. -/
def fuzzyMatchVariations : List (String × String) := [
  ("js", "javascript"), ("ts", "typescript"), ("reactjs", "react"),
  ("react.js", "react"), ("node", "nodejs"), ("node.js", "nodejs"),
  ("postgres", "postgresql"), ("mysql", "mysql"), ("tf", "tensorflow"),
  ("torch", "pytorch"), ("k8s", "kubernetes"), ("aws cloud", "aws"),
  ("amazon web services", "aws"), ("machine learning", "ml"),
  ("artificial intelligence", "ai"), ("data science", "datascience"),
  ("web development", "webdev"), ("mobile development", "mobiledev"),
  ("devops", "devops"), ("cloud computing", "cloud")]

/-- `skillMap` after `initializeSkillMaps`: for each skill, `set(id)` then
`set(canonicalName.toLowerCase())`; each `set` prepends, so `lookupFun`
returns the most recent binding exactly like `Map.get`. -/
def skillMapList : List (String × Skill) :=
  skills.foldl (fun m sk => (jsToLower sk.canonicalName, sk) :: (sk.id, sk) :: m) []

/-- `aliasMap` after `initializeSkillMaps`. -/
def aliasMapList : List (String × String) :=
  skills.foldl
    (fun m sk => sk.aliases.foldl (fun m2 a => (jsToLower a, sk.canonicalName) :: m2) m) []

/-- `getSkillById` of the skill normalizer (`skillMap.get(skillId)`). -/
def getSkillById (skillId : String) : Option Skill := lookupFun skillMapList skillId

/-- `areSkillsRelated` of the skill normalizer. -/
def areSkillsRelated (skill1Id skill2Id : String) : Bool :=
  match getSkillById skill1Id, getSkillById skill2Id with
  | some skill1, some skill2 =>
    skill1.relatedSkills.contains skill2Id || skill2.relatedSkills.contains skill1Id
  | _, _ => false

/-- The partial-matching scan in `findFuzzyMatch`: first skill (in registry
order) whose canonical name or one of whose aliases contains the query, or is
contained in it. -/
def fuzzyScan : List Skill → String → Option Skill
  | [], _ => none
  | sk :: rest, q =>
    if jsIncludes (jsToLower sk.canonicalName) q || jsIncludes q (jsToLower sk.canonicalName) then
      some sk
    else if sk.aliases.any (fun a => jsIncludes (jsToLower a) q || jsIncludes q (jsToLower a)) then
      some sk
    else
      fuzzyScan rest q

/-- `findFuzzyMatch`: the variant table is consulted first; a table hit is
resolved through `skillMap` (and the scan is then skipped, even if the table's
target is absent from the map). -/
def findFuzzyMatch (name : String) : Option Skill :=
  match lookupFun fuzzyMatchVariations name with
  | some variation => lookupFun skillMapList variation
  | none => fuzzyScan skills name

/-- `normalizeSkill` of the skill normalizer. -/
def normalizeSkill (skillName : String) : String :=
  let normalizedName := jsTrim (jsToLower skillName)
  match lookupFun skillMapList normalizedName with
  | some sk => sk.canonicalName
  | none =>
    match lookupFun aliasMapList normalizedName with
    | some canonical => canonical
    | none =>
      match findFuzzyMatch normalizedName with
      | some sk => sk.canonicalName
      | none => skillName

structure SkillExtractionResult where
  skills : List String
  confidence : ℚ
  matchedTerms : List String
  unmatchedTerms : List String
deriving DecidableEq

/-- One iteration of the first (exact-substring) pass of
`extractSkillsFromText`, over the state (extractedSkills, foundSkills,
matchedTerms). -/
def pass1Step (normText : String)
    (st : List String × List String × List String) (sk : Skill) :
    List String × List String × List String :=
  let skillName := jsToLower sk.canonicalName
  if jsIncludes normText skillName && !(st.2.1.contains sk.id) then
    (st.1 ++ [sk.canonicalName], st.2.1 ++ [sk.id], st.2.2 ++ [skillName])
  else
    match (sk.aliases.map jsToLower).find?
        (fun a => jsIncludes normText a && !(st.2.1.contains sk.id)) with
    | some a => (st.1 ++ [sk.canonicalName], st.2.1 ++ [sk.id], st.2.2 ++ [a])
    | none => st

/-- One iteration of the second (fuzzy) pass of `extractSkillsFromText`, over
the state (extractedSkills, foundSkills, matchedTerms, unmatchedTerms). -/
def pass2Step (st : List String × List String × List String × List String)
    (word : String) : List String × List String × List String × List String :=
  if word.length < 3 then
    (st.1, st.2.1, st.2.2.1, st.2.2.2 ++ [word])
  else
    match findFuzzyMatch word with
    | some sk =>
      if !(st.2.1.contains sk.id) then
        (st.1 ++ [sk.canonicalName], st.2.1 ++ [sk.id], st.2.2.1 ++ [word], st.2.2.2)
      else
        (st.1, st.2.1, st.2.2.1, st.2.2.2 ++ [word])
    | none => (st.1, st.2.1, st.2.2.1, st.2.2.2 ++ [word])

/-- `extractSkillsFromText` of the skill normalizer. -/
def extractSkillsFromText (text : String) : SkillExtractionResult :=
  let normText := jsToLower text
  let p1 := skills.foldl (pass1Step normText) ([], [], [])
  let words := jsSplitWs normText
  let p2 := words.foldl pass2Step (p1.1, p1.2.1, p1.2.2, [])
  let m : ℚ := p2.2.2.1.length
  let u : ℚ := p2.2.2.2.length
  ⟨p2.1, if 0 < p2.2.2.1.length then min 1 (m / (m + u)) else 0, p2.2.2.1, p2.2.2.2⟩

/-! ### Scoring engine (`src/app/lib/scoringEngine.ts`) -/

/-- The per-requirement weight `requirement.isRequired ? 2 : 1`, inlined at
each use in the source and shared here. -/
def reqWeight (requirement : JobRequirement) : ℚ := if requirement.isRequired then 2 else 1

def findCandidateSkill (skillId : String) (candidate : Candidate) : Option String :=
  candidate.skills.find? (fun skill => skill == skillId)

def findRelevantExperience (skillId : String) (candidate : Candidate) : Option Experience :=
  candidate.experience.find? (fun exp => exp.skillId == skillId)

/-- `findTransferableSkills`: empty when the required skill does not resolve,
otherwise the candidate experiences whose skill resolves and is related to
the required skill. -/
def findTransferableSkills (skillId : String) (candidate : Candidate) : List Experience :=
  match getSkillById skillId with
  | none => []
  | some _ =>
    candidate.experience.filter (fun exp =>
      (getSkillById exp.skillId).isSome && areSkillsRelated skillId exp.skillId)

/-- `calculateRelatedSkillsBonus`: 0 with no related experience, else the
average related duration normalized by 24 months and capped at 1. -/
def calculateRelatedSkillsBonus (requiredSkillId : String) (candidate : Candidate) : ℚ :=
  let relatedSkills := findTransferableSkills requiredSkillId candidate
  if relatedSkills.length = 0 then 0
  else
    let avgExperience := (relatedSkills.map (fun skill => skill.duration)).sum / relatedSkills.length
    min (avgExperience / 24) 1

structure SkillMatchResult where
  score : ℚ
  directMatches : List String
  relatedMatches : List String
  missingSkills : List String
deriving DecidableEq

/-- Accumulator of the requirement loop in `calculateSkillMatchScore`. -/
structure SkillAcc where
  totalScore : ℚ
  totalWeight : ℚ
  directMatches : List String
  relatedMatches : List String
  missingSkills : List String
deriving DecidableEq

/-- The requirement loop of `calculateSkillMatchScore` (processing the head
requirement first, exactly as the `for` loop does). -/
def skillMatchAux (candidate : Candidate) : List JobRequirement → SkillAcc
  | [] => ⟨0, 0, [], [], []⟩
  | r :: rest =>
    let t := skillMatchAux candidate rest
    let w := reqWeight r
    match findCandidateSkill r.skillId candidate with
    | some _ =>
      let relatedBonus := calculateRelatedSkillsBonus r.skillId candidate
      ⟨w * 1 + w * relatedBonus * (3/10) + t.totalScore, w + t.totalWeight,
       r.skillId :: t.directMatches, t.relatedMatches, t.missingSkills⟩
    | none =>
      let relatedBonus := calculateRelatedSkillsBonus r.skillId candidate
      if 0 < relatedBonus then
        ⟨w * relatedBonus * (1/2) + t.totalScore, w + t.totalWeight,
         t.directMatches, r.skillId :: t.relatedMatches, t.missingSkills⟩
      else
        ⟨w * relatedBonus * (1/2) + t.totalScore, w + t.totalWeight,
         t.directMatches, t.relatedMatches, r.skillId :: t.missingSkills⟩

def calculateSkillMatchScore (requirements : List JobRequirement) (candidate : Candidate) :
    SkillMatchResult :=
  let a := skillMatchAux candidate requirements
  ⟨if 0 < a.totalWeight then a.totalScore / a.totalWeight else 0,
   a.directMatches, a.relatedMatches, a.missingSkills⟩

def calculateLearningIndicators (candidate : Candidate) : ℚ :=
  let i1 : ℚ := if 5 < candidate.skills.length then 1 else 0
  let i2 : ℚ := if candidate.education.any (fun edu => 2024 - edu.graduationYear ≤ 5) then 1 else 0
  let i3 : ℚ := if candidate.experience.any (fun exp => exp.hasLeadershipRole) then 1 else 0
  (i1 + i2 + i3) / 3

def calculateLearnability (skillId : String) (candidate : Candidate) : ℚ :=
  match getSkillById skillId with
  | none => 1/2
  | some skill =>
    min 1 ((1 - skill.difficultyLevel / 5) + calculateLearningIndicators candidate * (3/10))

def calculateLevelAlignment (candidateLevel requiredLevel : ℚ) : ℚ :=
  max 0 (1 - |candidateLevel - requiredLevel| / 5)

structure ExperienceResult where
  score : ℚ
  relevantExperience : List Experience
  gaps : List ExperienceGap
deriving DecidableEq

/-- Accumulator of the requirement loop in `calculateExperienceScore`. -/
structure ExpAcc where
  totalScore : ℚ
  totalWeight : ℚ
  relevantExperience : List Experience
  gaps : List ExperienceGap
deriving DecidableEq

/-- The requirement loop of `calculateExperienceScore`. -/
def expAux (candidate : Candidate) : List JobRequirement → ExpAcc
  | [] => ⟨0, 0, [], []⟩
  | r :: rest =>
    let t := expAux candidate rest
    let w := reqWeight r
    match findRelevantExperience r.skillId candidate with
    | some e =>
      let durationScore := min (e.duration / r.minDuration) 1
      let complexityScore := e.complexityLevel / 5
      let leadershipScore : ℚ := if e.hasLeadershipRole then 1 else 1/2
      let levelScore := calculateLevelAlignment e.complexityLevel r.requiredLevel
      let experienceScore := (durationScore + complexityScore + leadershipScore + levelScore) / 4
      let gap := max 0 (r.minDuration - e.duration)
      if 0 < gap then
        ⟨w * experienceScore + t.totalScore, w + t.totalWeight, e :: t.relevantExperience,
         ⟨r.skillId, r.minDuration, e.duration, gap, calculateLearnability r.skillId candidate⟩
           :: t.gaps⟩
      else
        ⟨w * experienceScore + t.totalScore, w + t.totalWeight, e :: t.relevantExperience, t.gaps⟩
    | none =>
      ⟨w * (1/10) + t.totalScore, w + t.totalWeight, t.relevantExperience,
       ⟨r.skillId, r.minDuration, 0, r.minDuration, calculateLearnability r.skillId candidate⟩
         :: t.gaps⟩

def calculateExperienceScore (requirements : List JobRequirement) (candidate : Candidate) :
    ExperienceResult :=
  let a := expAux candidate requirements
  ⟨if 0 < a.totalWeight then a.totalScore / a.totalWeight else 0,
   a.relevantExperience, a.gaps⟩

/-- The per-experience transferability term of `calculateTransferableSkillsScore`
(0 if either skill does not resolve). -/
def transferabilityOf (requirement : JobRequirement) (exp : Experience) : ℚ :=
  match getSkillById exp.skillId, getSkillById requirement.skillId with
  | some skillData, some requiredSkillData =>
    let baseTransferability :=
      1 - |skillData.difficultyLevel - requiredSkillData.difficultyLevel| / 5
    let experienceFactor := min (exp.duration / 24) 1
    baseTransferability * experienceFactor
  | _, _ => 0

structure TransferableSkillsResult where
  score : ℚ
  transferableSkills : List Experience
  transferabilityScores : List ℚ
deriving DecidableEq

/-- The requirement loop of `calculateTransferableSkillsScore`. -/
def transAux (candidate : Candidate) : List JobRequirement → ℚ × ℚ × List Experience × List ℚ
  | [] => (0, 0, [], [])
  | r :: rest =>
    let t := transAux candidate rest
    let w := reqWeight r
    let found := findTransferableSkills r.skillId candidate
    if 0 < found.length then
      let scores := found.map (transferabilityOf r)
      let avgTransferability := scores.sum / scores.length
      (w * avgTransferability + t.1, w + t.2.1, found ++ t.2.2.1, scores ++ t.2.2.2)
    else
      (w * 0 + t.1, w + t.2.1, t.2.2.1, t.2.2.2)

def calculateTransferableSkillsScore (requirements : List JobRequirement)
    (candidate : Candidate) : TransferableSkillsResult :=
  let a := transAux candidate requirements
  ⟨if 0 < a.2.1 then a.1 / a.2.1 else 0, a.2.2.1, a.2.2.2⟩

/-- The `degreeLevels` table of the scoring-engine configuration, in insertion
order (`Object.entries` iterates string keys in that order). -/
def degreeLevels : List (String × ℚ) := [
  ("phd", 3), ("doctorate", 3), ("master", 2), ("bachelor", 1),
  ("associate", 1/2), ("diploma", 1/2), ("certificate", 1/4)]

def getDegreeLevel (degree : String) : ℚ :=
  match degreeLevels.find? (fun p => jsIncludes (jsToLower degree) p.1) with
  | some p => p.2
  | none => 0

def calculateEducationScore (education : List Education) : ℚ :=
  if education.length = 0 then 3/10
  else
    let highestDegree := education.foldl
      (fun highest edu =>
        let degreeLevel := getDegreeLevel edu.degree
        if highest < degreeLevel then degreeLevel else highest) 0
    min (highestDegree / 3) 1

/-- `[...candidate.experience].sort((a, b) => a.duration - b.duration)`:
JavaScript's sort is stable, and a stable sort is extensionally determined by
its comparator, so insertion sort is a faithful model. -/
def sortByDuration (l : List Experience) : List Experience :=
  List.insertionSort (fun a b => a.duration ≤ b.duration) l

/-- The `complexityIncrease` count of `calculateGrowthTrajectory`. -/
def countComplexityIncreases : List Experience → ℕ
  | a :: b :: rest =>
    (if a.complexityLevel < b.complexityLevel then 1 else 0)
      + countComplexityIncreases (b :: rest)
  | _ => 0

def calculateGrowthTrajectory (candidate : Candidate) : ℚ :=
  if candidate.experience.length < 2 then 1/2
  else
    let sortedExperience := sortByDuration candidate.experience
    (countComplexityIncreases sortedExperience : ℚ) / ((sortedExperience.length : ℚ) - 1)

structure PotentialResult where
  score : ℚ
  educationScore : ℚ
  learningScore : ℚ
  growthScore : ℚ
  indicators : List String
deriving DecidableEq

def calculatePotentialScore (candidate : Candidate) : PotentialResult :=
  let educationScore := calculateEducationScore candidate.education
  let learningScore := calculateLearningIndicators candidate
  let growthScore := calculateGrowthTrajectory candidate
  let potentialScore := educationScore * (3/10) + learningScore * (4/10) + growthScore * (3/10)
  let ind1 : List String :=
    if candidate.education.any (fun edu => jsIncludes (jsToLower edu.field) "computer") then
      ["Strong educational background in computer science"] else []
  let ind2 : List String :=
    if candidate.experience.any (fun exp => exp.hasLeadershipRole) then
      ["Demonstrated leadership experience"] else []
  let ind3 : List String :=
    if 5 < candidate.skills.length then ["Diverse skill set"] else []
  let ind4 : List String :=
    if candidate.education.any (fun edu => 2024 - edu.graduationYear ≤ 5) then
      ["Recent education"] else []
  ⟨potentialScore, educationScore, learningScore, growthScore, ind1 ++ ind2 ++ ind3 ++ ind4⟩

def generateScoreBreakdown (requirements : List JobRequirement) (candidate : Candidate) :
    ScoreBreakdown :=
  let skillMatchResult := calculateSkillMatchScore requirements candidate
  let experienceResult := calculateExperienceScore requirements candidate
  let potentialResult := calculatePotentialScore candidate
  let riskFactors : List String :=
    (if (requirements.length : ℚ) * (1/2) < (skillMatchResult.missingSkills.length : ℚ) then
      ["Significant skill gaps"] else []) ++
    (if experienceResult.gaps.any (fun gap => 12 < gap.gap) then
      ["Large experience gaps in key areas"] else []) ++
    (if candidate.experience.length < 2 then ["Limited work experience"] else [])
  ⟨skillMatchResult.directMatches, skillMatchResult.missingSkills,
   skillMatchResult.relatedMatches, experienceResult.gaps,
   potentialResult.indicators, riskFactors⟩

def calculateMatchingScore (candidate : Candidate) (job : Job) : MatchingScore :=
  let skillMatchResult := calculateSkillMatchScore job.requirements candidate
  let experienceResult := calculateExperienceScore job.requirements candidate
  let transferableSkillsResult := calculateTransferableSkillsScore job.requirements candidate
  let potentialResult := calculatePotentialScore candidate
  let overallScore :=
    skillMatchResult.score * (4/10) + experienceResult.score * (3/10)
      + transferableSkillsResult.score * (2/10) + potentialResult.score * (1/10)
  let breakdown := generateScoreBreakdown job.requirements candidate
  ⟨roundTo2 overallScore, roundTo2 skillMatchResult.score, roundTo2 experienceResult.score,
   roundTo2 transferableSkillsResult.score, roundTo2 potentialResult.score, breakdown⟩

/-! ### Matching service (`src/app/lib/matchingService.ts`, the
`createMatchingServiceInstance` factory) -/

structure TransferabilityRecord where
  transferabilityScore : ℚ
  learningPath : List String
  timeToTransfer : ℚ
  confidence : ℚ
deriving DecidableEq

structure LearningAssessment where
  learnability : ℚ
  timeToProficiency : ℚ
  recommendations : List String
deriving DecidableEq

structure ExperienceValidation where
  isValid : Bool
  confidence : ℚ
  complexityLevel : ℚ
deriving DecidableEq

structure CulturalFitRecord where
  culturalFitScore : ℚ
  teamCollaborationScore : ℚ
  adaptabilityScore : ℚ
  recommendations : List String
deriving DecidableEq

/-- An element of `analysis.skillTransferability`
(`{sourceSkill, targetSkill, ...transferability}`). -/
structure SkillTransferEntry where
  sourceSkill : String
  targetSkill : String
  transferabilityScore : ℚ
  learningPath : List String
  timeToTransfer : ℚ
  confidence : ℚ
deriving DecidableEq

/-- An element of `analysis.learningPotential` (`{skill, ...learningAssessment}`). -/
structure LearningPotentialEntry where
  skill : String
  learnability : ℚ
  timeToProficiency : ℚ
  recommendations : List String
deriving DecidableEq

/-- An element of `analysis.experienceValidation` (`{skill, ...validation}`). -/
structure ExperienceValidationEntry where
  skill : String
  isValid : Bool
  confidence : ℚ
  complexityLevel : ℚ
deriving DecidableEq

structure AIAnalysis where
  skillTransferability : List SkillTransferEntry
  culturalFit : Option CulturalFitRecord
  learningPotential : List LearningPotentialEntry
  experienceValidation : List ExperienceValidationEntry
deriving DecidableEq

/-- The external AI collaborator (`aiService`); every call may throw, which we
model with `Except`. The service itself is out of scope, so it is a parameter. -/
structure AIOracle where
  analyzeSkillTransferability : String → String → String → Except String TransferabilityRecord
  assessCulturalFit : String → String → String → Except String CulturalFitRecord
  assessLearningPotential : String → String → Except String LearningAssessment
  validateExperience : String → String → ℚ → Except String ExperienceValidation

/-- JavaScript `optionalString || defaultString` (an empty string is falsy). -/
def jsOrDefault (o : Option String) (d : String) : String :=
  match o with
  | some s => if s.isEmpty then d else s
  | none => d

/-- The skill-transferability loop of `performEnhancedAIAnalysis`. An
`.error a` result models a thrown AI exception caught by the surrounding
`catch`, which keeps the analysis `a` accumulated so far. -/
def aiStep1 (oracle : AIOracle) (candidate : Candidate) :
    List JobRequirement → AIAnalysis → Except AIAnalysis AIAnalysis
  | [], analysis => .ok analysis
  | missingSkill :: rest, analysis =>
    let relatedSkills := candidate.skills.filter
      (fun skillId => areSkillsRelated skillId missingSkill.skillId)
    match relatedSkills with
    | [] => aiStep1 oracle candidate rest analysis
    | sourceSkill :: _ =>
      match candidate.experience.find? (fun exp => exp.skillId == sourceSkill) with
      | none => aiStep1 oracle candidate rest analysis
      | some candidateExp =>
        match oracle.analyzeSkillTransferability sourceSkill missingSkill.skillId
            (jsOrDefault candidateExp.projectDescription (sourceSkill ++ " experience")) with
        | .error _ => .error analysis
        | .ok tr =>
          aiStep1 oracle candidate rest
            { analysis with
              skillTransferability := analysis.skillTransferability ++
                [⟨sourceSkill, missingSkill.skillId, tr.transferabilityScore,
                  tr.learningPath, tr.timeToTransfer, tr.confidence⟩] }

/-- The learning-potential loop of `performEnhancedAIAnalysis`. -/
def aiStep3 (oracle : AIOracle) (candidate : Candidate) :
    List JobRequirement → AIAnalysis → Except AIAnalysis AIAnalysis
  | [], analysis => .ok analysis
  | missingSkill :: rest, analysis =>
    match oracle.assessLearningPotential missingSkill.skillId candidate.summary with
    | .error _ => .error analysis
    | .ok la =>
      aiStep3 oracle candidate rest
        { analysis with
          learningPotential := analysis.learningPotential ++
            [⟨missingSkill.skillId, la.learnability, la.timeToProficiency, la.recommendations⟩] }

/-- The experience-validation loop of `performEnhancedAIAnalysis`. -/
def aiStep4 (oracle : AIOracle) :
    List Experience → AIAnalysis → Except AIAnalysis AIAnalysis
  | [], analysis => .ok analysis
  | experience :: rest, analysis =>
    match oracle.validateExperience experience.skillId
        (jsOrDefault experience.projectDescription (experience.skillId ++ " experience"))
        experience.duration with
    | .error _ => .error analysis
    | .ok v =>
      aiStep4 oracle rest
        { analysis with
          experienceValidation := analysis.experienceValidation ++
            [⟨experience.skillId, v.isValid, v.confidence, v.complexityLevel⟩] }

/-- `performEnhancedAIAnalysis`: the whole `try` body runs the four analysis
steps in sequence; any AI failure is caught and the analysis accumulated so
far is returned (`// Continue with basic analysis if AI fails`). It never
propagates an error. -/
def performEnhancedAIAnalysis (oracle : AIOracle) (candidate : Candidate) (job : Job) :
    AIAnalysis :=
  let analysis0 : AIAnalysis := ⟨[], none, [], []⟩
  let missingSkills := job.requirements.filter
    (fun req => !(candidate.skills.contains req.skillId))
  match aiStep1 oracle candidate (missingSkills.take 3) analysis0 with
  | .error a => a
  | .ok a1 =>
    match oracle.assessCulturalFit candidate.summary job.company "25" with
    | .error _ => a1
    | .ok cf =>
      let a2 := { a1 with culturalFit := some cf }
      match aiStep3 oracle candidate (missingSkills.take 2) a2 with
      | .error a => a
      | .ok a3 =>
        match aiStep4 oracle (candidate.experience.take 3) a3 with
        | .error a => a
        | .ok a4 => a4

/-- `calculateConfidence` of the matching service. -/
def calculateConfidence (score : MatchingScore) : ℚ :=
  let breakdown := score.breakdown
  let c1 : ℚ := 8/10
  let c2 := if 0 < breakdown.matchedSkills.length then c1 + 1/10 else c1
  let c3 := if breakdown.missingSkills.length = 0 then c2 + 5/100 else c2
  let c4 := if breakdown.experienceGaps.length = 0 then c3 + 5/100 else c3
  let largeGaps := breakdown.experienceGaps.filter (fun gap => 12 < gap.gap)
  let c5 := c4 - (largeGaps.length : ℚ) * (5/100)
  let c6 :=
    if breakdown.matchedSkills.length < breakdown.missingSkills.length then c5 - 1/10 else c5
  max (3/10) (min 1 c6)

/-- `calculateEnhancedConfidence` of the matching service. -/
def calculateEnhancedConfidence (score : MatchingScore) (aiAnalysis : AIAnalysis) : ℚ :=
  let c0 := calculateConfidence score
  let c1 :=
    if 0 < aiAnalysis.skillTransferability.length then
      c0 + ((aiAnalysis.skillTransferability.map
          (fun item => item.transferabilityScore)).sum
            / aiAnalysis.skillTransferability.length) * (1/10)
    else c0
  let c2 :=
    match aiAnalysis.culturalFit with
    | some cf => c1 + cf.culturalFitScore * (5/100)
    | none => c1
  let c3 :=
    if 0 < aiAnalysis.experienceValidation.length then
      c2 + ((aiAnalysis.experienceValidation.map (fun item => item.confidence)).sum
            / aiAnalysis.experienceValidation.length) * (1/10)
    else c2
  min 1 (max (3/10) c3)

/-- `skillIds.map(id => getSkillById(id)?.canonicalName).filter(Boolean).join(", ")`. -/
def skillNames (ids : List String) : String :=
  String.intercalate ", "
    (ids.filterMap (fun skillId => (getSkillById skillId).map (fun sk => sk.canonicalName)))

/-- `generateExplanation` of the matching service. -/
def generateExplanation (candidate : Candidate) (job : Job) (score : MatchingScore) : String :=
  let breakdown := score.breakdown
  let e1 := "Based on our analysis, " ++ candidate.name ++ " has a "
    ++ toString (jsRound (score.overallScore * 100)) ++ "% match for the "
    ++ job.title ++ " position at " ++ job.company ++ ". "
  let e2 :=
    if 0 < breakdown.matchedSkills.length then
      e1 ++ "They have direct experience with " ++ skillNames breakdown.matchedSkills ++ ". "
    else e1
  let e3 :=
    if 0 < breakdown.relatedSkills.length then
      e2 ++ "They also have related experience with " ++ skillNames breakdown.relatedSkills ++ ". "
    else e2
  let e4 :=
    if breakdown.experienceGaps.length = 0 then
      e3 ++ "Their experience levels align well with the job requirements. "
    else
      let smallGaps := breakdown.experienceGaps.filter (fun gap => gap.gap ≤ 6)
      let largeGaps := breakdown.experienceGaps.filter (fun gap => 6 < gap.gap)
      let e4a :=
        if 0 < smallGaps.length then e3 ++ "They have minor experience gaps in some areas. "
        else e3
      if 0 < largeGaps.length then
        e4a ++ "There are significant experience gaps that may require additional training. "
      else e4a
  let e5 :=
    if 0 < breakdown.potentialIndicators.length then
      e4 ++ "They show strong potential indicators including "
        ++ String.intercalate ", " breakdown.potentialIndicators ++ ". "
    else e4
  if 0 < breakdown.riskFactors.length then
    e5 ++ "Consider addressing these risk factors: "
      ++ String.intercalate ", " breakdown.riskFactors ++ ". "
  else e5

/-- `generateRecommendations` of the matching service. -/
def generateRecommendations (candidate : Candidate) (job : Job) (score : MatchingScore) :
    List String :=
  let breakdown := score.breakdown
  let r1 : List String :=
    if 0 < breakdown.missingSkills.length then
      ["Consider gaining experience with " ++ skillNames breakdown.missingSkills]
    else []
  let significantGaps := breakdown.experienceGaps.filter (fun gap => 6 < gap.gap)
  let r2 : List String :=
    if 0 < significantGaps.length then
      ["Focus on building deeper experience with "
        ++ String.intercalate ", " (significantGaps.filterMap
          (fun gap => (getSkillById gap.skillId).map (fun sk => sk.canonicalName)))]
    else []
  let r3 : List String :=
    if score.overallScore < 7/10 then
      ["Consider additional training or certification programs"]
    else []
  let r4 : List String :=
    if !(candidate.experience.any (fun exp => exp.hasLeadershipRole)) then
      ["Seek opportunities to demonstrate leadership skills"]
    else []
  let r5 : List String :=
    if !(candidate.education.any (fun edu => 2024 - edu.graduationYear ≤ 5)) then
      ["Consider pursuing additional education or certifications"]
    else []
  r1 ++ r2 ++ r3 ++ r4 ++ r5

/-- `array.reduce((best, current) => current.transferabilityScore >
best.transferabilityScore ? current : best)`: no initial value, so the head
seeds the accumulator. -/
def maxByTransferability : SkillTransferEntry → List SkillTransferEntry → SkillTransferEntry
  | best, [] => best
  | best, current :: rest =>
    maxByTransferability
      (if best.transferabilityScore < current.transferabilityScore then current else best) rest

/-- `array.reduce((fastest, current) => current.timeToProficiency <
fastest.timeToProficiency ? current : fastest)`. -/
def minByTimeToProficiency :
    LearningPotentialEntry → List LearningPotentialEntry → LearningPotentialEntry
  | best, [] => best
  | best, current :: rest =>
    minByTimeToProficiency
      (if current.timeToProficiency < best.timeToProficiency then current else best) rest

/-- `generateEnhancedExplanation` of the matching service. -/
def generateEnhancedExplanation (candidate : Candidate) (job : Job) (score : MatchingScore)
    (aiAnalysis : AIAnalysis) : String :=
  let base := generateExplanation candidate job score
  let g1 :=
    match aiAnalysis.skillTransferability with
    | [] => base
    | h :: t =>
      let bestTransfer := maxByTransferability h t
      base ++ " AI analysis shows strong transferability ("
        ++ toString (jsRound (bestTransfer.transferabilityScore * 100)) ++ "%) from "
        ++ bestTransfer.sourceSkill ++ " to " ++ bestTransfer.targetSkill ++ "."
  let g2 :=
    match aiAnalysis.culturalFit with
    | some cf =>
      g1 ++ " Cultural fit assessment indicates "
        ++ toString (jsRound (cf.culturalFitScore * 100)) ++ "% alignment with company values."
    | none => g1
  match aiAnalysis.learningPotential with
  | [] => g2
  | lp =>
    let avgLearningTime := (lp.map (fun item => item.timeToProficiency)).sum / lp.length
    g2 ++ " Estimated learning time for missing skills: "
      ++ toString (jsRound avgLearningTime) ++ " months."

/-- `generateEnhancedRecommendations` of the matching service. -/
def generateEnhancedRecommendations (candidate : Candidate) (job : Job)
    (score : MatchingScore) (aiAnalysis : AIAnalysis) : List String :=
  let recommendations := generateRecommendations candidate job score
  let r1 :=
    match aiAnalysis.skillTransferability with
    | [] => recommendations
    | h :: t =>
      let bestTransfer := maxByTransferability h t
      recommendations ++
        ["Leverage " ++ bestTransfer.sourceSkill ++ " experience to accelerate learning of "
          ++ bestTransfer.targetSkill]
  let r2 :=
    match aiAnalysis.learningPotential with
    | [] => r1
    | h :: t =>
      let fastestLearning := minByTimeToProficiency h t
      r1 ++ ["Focus on " ++ fastestLearning.skill ++ " first ("
        ++ toString (jsRound fastestLearning.timeToProficiency) ++ " months to proficiency)"]
  let r3 :=
    match aiAnalysis.culturalFit with
    | some cf => r2 ++ cf.recommendations.take 2
    | none => r2
  r3.take 5

structure MatchingResult where
  candidate : Candidate
  job : Job
  score : MatchingScore
  explanation : String
  recommendations : List String
deriving DecidableEq

structure MatchingResponse where
  result : MatchingResult
  processingTime : ℚ
  confidence : ℚ
deriving DecidableEq

structure MatchingRequest where
  jobId : String
  candidateId : String
deriving DecidableEq

/-- `findJobById` of `src/app/data/sampleJobs.ts`; the backing list is a
parameter (the sample data is an opaque read-only data source). -/
def findJobById (jobs : List Job) (jobId : String) : Option Job :=
  jobs.find? (fun job => job.id == jobId)

/-- `findCandidateById` of `src/app/data/sampleCandidates.ts`. -/
def findCandidateById (candidates : List Candidate) (candidateId : String) : Option Candidate :=
  candidates.find? (fun c => c.id == candidateId)

/-- `match` of the matching service (named `matchRequest` here because `match`
is a Lean keyword). `elapsed` abstracts the wall-clock `processingTime`. The
`catch` block re-wraps any thrown message with the `Matching failed:` prefix. -/
def matchRequest (jobs : List Job) (candidates : List Candidate) (oracle : AIOracle)
    (elapsed : ℚ) (request : MatchingRequest) : Except String MatchingResponse :=
  let body : Except String MatchingResponse :=
    match findJobById jobs request.jobId with
    | none => .error ("Job with ID " ++ request.jobId ++ " not found")
    | some job =>
      match findCandidateById candidates request.candidateId with
      | none => .error ("Candidate with ID " ++ request.candidateId ++ " not found")
      | some candidate =>
        let score := calculateMatchingScore candidate job
        let aiAnalysis := performEnhancedAIAnalysis oracle candidate job
        let explanation := generateEnhancedExplanation candidate job score aiAnalysis
        let recommendations := generateEnhancedRecommendations candidate job score aiAnalysis
        let result : MatchingResult := ⟨candidate, job, score, explanation, recommendations⟩
        .ok ⟨result, elapsed, calculateEnhancedConfidence score aiAnalysis⟩
  match body with
  | .ok r => .ok r
  | .error msg => .error ("Matching failed: " ++ msg)

/-! ### Concrete sample inputs used by witnesses and counterexamples -/

/-- A candidate who lists `react` directly and has 24 months of related
`javascript` experience; all data-model invariants hold. -/
def candSample : Candidate :=
  ⟨"cand-1", "Sample Candidate", "sample@example.com",
   [⟨"exp-1", "javascript", 24, 3, false, none, []⟩], ["react"], [], ""⟩

/-- A job with a single required `react` requirement. -/
def jobSample : Job :=
  ⟨"job-1", "Frontend Developer", "Acme", "", [⟨"react", 24, 4, true, none⟩], [], "SF", none⟩

/-- A job with an empty requirements list. -/
def jobNoReqs : Job := ⟨"job-0", "Generalist", "Acme", "", [], [], "SF", none⟩

/-! ### Shared helper lemmas -/

theorem isEmpty_iff_len {α : Type} (l : List α) : l.isEmpty = true ↔ l.length = 0 := by
  simp [List.isEmpty_iff, List.length_eq_zero]

theorem not_isEmpty_iff_len {α : Type} (l : List α) : (!l.isEmpty) = true ↔ 0 < l.length := by
  simp [List.isEmpty_iff, List.length_pos]

/-- Claim-side confidence, additive boosts: +0.1 for any matched skill, +0.05
for no missing skills, +0.05 for no experience gaps. -/
def confidenceBoosts (b : ScoreBreakdown) : ℚ :=
  (if !b.matchedSkills.isEmpty then 1/10 else 0)
    + (if b.missingSkills.isEmpty then 5/100 else 0)
    + (if b.experienceGaps.isEmpty then 5/100 else 0)

/-- Claim-side confidence, penalties: 0.05 per gap exceeding 12 months, plus
0.1 when the missing skills outnumber the matched ones. -/
def confidencePenalties (b : ScoreBreakdown) : ℚ :=
  ((b.experienceGaps.filter (fun g => 12 < g.gap)).length : ℚ) * (5/100)
    + (if b.matchedSkills.length < b.missingSkills.length then 1/10 else 0)

/-- The claim-side confidence formula: base 0.8 plus the boosts minus the
penalties, clamped to [0.3, 1]. -/
def confidenceSpec (b : ScoreBreakdown) : ℚ :=
  max (3/10) (min 1 ((8/10) + confidenceBoosts b - confidencePenalties b))

/-- C4: the confidence of the matching service equals the clamped additive
formula of the claim, and both the plain and the AI-augmented confidence lie
in [0.3, 1] for every input. -/
theorem c4_confidence :
    (∀ score : MatchingScore,
      calculateConfidence score = confidenceSpec score.breakdown
      ∧ 3/10 ≤ calculateConfidence score ∧ calculateConfidence score ≤ 1)
    ∧ (∀ (score : MatchingScore) (aiAnalysis : AIAnalysis),
      3/10 ≤ calculateEnhancedConfidence score aiAnalysis
      ∧ calculateEnhancedConfidence score aiAnalysis ≤ 1) := by
  constructor
  · intro score
    refine ⟨?_, ?_, ?_⟩
    · simp only [calculateConfidence, confidenceSpec, confidenceBoosts,
        confidencePenalties, isEmpty_iff_len, not_isEmpty_iff_len]
      split_ifs <;> ring
    · unfold calculateConfidence
      exact le_max_left _ _
    · unfold calculateConfidence
      exact max_le (by norm_num) (min_le_left _ _)
  · intro score aiAnalysis
    unfold calculateEnhancedConfidence
    refine ⟨le_min (by norm_num) (le_max_left _ _), min_le_left _ _⟩

/-- C8: with an empty requirements list every requirement-driven sub-score is
zero (the guarded denominators make the division-by-zero branch unreachable). -/
theorem c8_zero_requirements (candidate : Candidate) (job : Job)
    (h : job.requirements = []) :
    (calculateMatchingScore candidate job).skillMatchScore = 0
    ∧ (calculateMatchingScore candidate job).experienceScore = 0
    ∧ (calculateMatchingScore candidate job).transferableSkillsScore = 0 := by
  have hsk : (calculateMatchingScore candidate job).skillMatchScore
      = roundTo2 (calculateSkillMatchScore job.requirements candidate).score := rfl
  have hex : (calculateMatchingScore candidate job).experienceScore
      = roundTo2 (calculateExperienceScore job.requirements candidate).score := rfl
  have htr : (calculateMatchingScore candidate job).transferableSkillsScore
      = roundTo2 (calculateTransferableSkillsScore job.requirements candidate).score := rfl
  have hr : roundTo2 0 = 0 := by
    unfold roundTo2 jsRound
    norm_num
  rw [hsk, hex, htr, h]
  refine ⟨?_, ?_, ?_⟩ <;>
    simp [calculateSkillMatchScore, skillMatchAux, calculateExperienceScore, expAux,
      calculateTransferableSkillsScore, transAux, hr]

/-- C8 witness: the concrete zero-requirement job. -/
theorem c8_zero_requirements_witness :
    (calculateMatchingScore candSample jobNoReqs).skillMatchScore = 0
    ∧ (calculateMatchingScore candSample jobNoReqs).experienceScore = 0
    ∧ (calculateMatchingScore candSample jobNoReqs).transferableSkillsScore = 0 :=
  c8_zero_requirements candSample jobNoReqs rfl

/-- C5: `match` fails exactly when the job id or the candidate id does not
resolve; for every AI collaborator behaviour (including one whose calls all
throw) a resolved pair yields a complete response, the AI failure being
recovered inside `performEnhancedAIAnalysis`. -/
theorem c5_match_error_iff (jobs : List Job) (candidates : List Candidate)
    (oracle : AIOracle) (elapsed : ℚ) (request : MatchingRequest) :
    (matchRequest jobs candidates oracle elapsed request).isOk
      = ((findJobById jobs request.jobId).isSome
          && (findCandidateById candidates request.candidateId).isSome) := by
  unfold matchRequest
  cases hj : findJobById jobs request.jobId with
  | none => simp [Except.isOk, Except.toBool]
  | some job =>
    cases hc : findCandidateById candidates request.candidateId with
    | none => simp [Except.isOk, Except.toBool]
    | some candidate => simp [Except.isOk, Except.toBool]

/-- The growth-trajectory computation with the state of the candidate's
`experience` array made explicit: the source sorts the spread copy
`[...candidate.experience]`, so the array observed after the call (second
component) is the untouched input. -/
def calculateGrowthTrajectoryTracked (experienceArray : List Experience) :
    ℚ × List Experience :=
  if experienceArray.length < 2 then (1/2, experienceArray)
  else
    let sortedExperience := sortByDuration experienceArray
    ((countComplexityIncreases sortedExperience : ℚ) / ((sortedExperience.length : ℚ) - 1),
     experienceArray)

/-- C9: the scoring pass does not mutate its inputs: the growth-trajectory
step sorts a copy (the tracked array state after the call equals the input,
and the sorted list is a permutation of the copy), and its value agrees with
the pure embedding used by `calculateMatchingScore`. -/
theorem c9_no_mutation (candidate : Candidate) :
    (calculateGrowthTrajectoryTracked candidate.experience).2 = candidate.experience
    ∧ (calculateGrowthTrajectoryTracked candidate.experience).1
        = calculateGrowthTrajectory candidate
    ∧ (sortByDuration candidate.experience).Perm candidate.experience := by
  refine ⟨?_, ?_, List.perm_insertionSort _ _⟩
  · unfold calculateGrowthTrajectoryTracked
    split <;> rfl
  · unfold calculateGrowthTrajectoryTracked calculateGrowthTrajectory
    split <;> rfl

/-! ### Bridge lemmas between the engine's helper functions and the
claim-side formulations -/

theorem areSkillsRelated_false_left {s x : String} (h : getSkillById s = none) :
    areSkillsRelated s x = false := by
  unfold areSkillsRelated
  rw [h]

theorem areSkillsRelated_isSome_right {s x : String} (h : areSkillsRelated s x = true) :
    (getSkillById x).isSome := by
  unfold areSkillsRelated at h
  cases h1 : getSkillById s <;> rw [h1] at h
  · simp at h
  · cases h2 : getSkillById x <;> rw [h2] at h
    · simp at h
    · rfl

/-- Claim-side "related candidate experiences": the experiences whose skill is
graph-related to the required skill. -/
def relatedExperiences (requiredSkillId : String) (candidate : Candidate) : List Experience :=
  candidate.experience.filter (fun exp => areSkillsRelated requiredSkillId exp.skillId)

/-- Claim-side related bonus: `min(avgDurationOfRelatedExperience / 24, 1)`,
0 with no related experience. -/
def relatedBonusSpec (requiredSkillId : String) (candidate : Candidate) : ℚ :=
  let rel := relatedExperiences requiredSkillId candidate
  if rel.isEmpty then 0
  else min (((rel.map (fun e => e.duration)).sum / rel.length) / 24) 1

theorem findTransferableSkills_eq (skillId : String) (c : Candidate) :
    findTransferableSkills skillId c = relatedExperiences skillId c := by
  unfold findTransferableSkills relatedExperiences
  cases h : getSkillById skillId with
  | none =>
    symm
    rw [List.filter_eq_nil_iff]
    intro e _
    simp [areSkillsRelated_false_left h]
  | some sk =>
    apply List.filter_congr
    intro e _
    cases h2 : areSkillsRelated skillId e.skillId
    · simp [h2]
    · simp [h2, areSkillsRelated_isSome_right h2]

theorem relatedBonus_eq (s : String) (c : Candidate) :
    calculateRelatedSkillsBonus s c = relatedBonusSpec s c := by
  unfold calculateRelatedSkillsBonus relatedBonusSpec
  rw [findTransferableSkills_eq]
  rcases h : relatedExperiences s c with _ | ⟨e, t⟩ <;> simp

theorem findCandidateSkill_contains (skillId : String) (c : Candidate) :
    (findCandidateSkill skillId c).isSome = c.skills.contains skillId := by
  unfold findCandidateSkill
  induction c.skills with
  | nil => rfl
  | cons x t ih =>
    by_cases hx : x = skillId
    · subst hx
      simp [List.find?]
    · rw [List.find?_cons_of_neg, List.contains_cons]
      · have : (skillId == x) = false := by
          simp [Ne.symm hx]
        rw [this]
        simpa using ih
      · simp [hx]

theorem reqWeight_one_le (r : JobRequirement) : 1 ≤ reqWeight r := by
  unfold reqWeight
  split <;> norm_num

theorem sum_reqWeight_nonneg (reqs : List JobRequirement) :
    0 ≤ (reqs.map reqWeight).sum := by
  apply List.sum_nonneg
  intro x hx
  rcases List.mem_map.mp hx with ⟨r, _, rfl⟩
  exact le_trans (by norm_num) (reqWeight_one_le r)

theorem sum_reqWeight_pos (r : JobRequirement) (rest : List JobRequirement) :
    0 < ((r :: rest).map reqWeight).sum := by
  rw [List.map_cons, List.sum_cons]
  have h1 := reqWeight_one_le r
  have h2 := sum_reqWeight_nonneg rest
  linarith

/-! ### C2: the skill-match formula -/

/-- Claim-side per-requirement award of the skill-match score. -/
def skillAwardSpec (candidate : Candidate) (r : JobRequirement) : ℚ :=
  if candidate.skills.contains r.skillId then
    reqWeight r * 1 + reqWeight r * relatedBonusSpec r.skillId candidate * (3/10)
  else
    reqWeight r * relatedBonusSpec r.skillId candidate * (1/2)

theorem skillMatchAux_totalScore (c : Candidate) (reqs : List JobRequirement) :
    (skillMatchAux c reqs).totalScore = (reqs.map (skillAwardSpec c)).sum := by
  induction reqs with
  | nil => rfl
  | cons r rest ih =>
    cases hf : findCandidateSkill r.skillId c with
    | some s =>
      have hc : c.skills.contains r.skillId = true := by
        rw [← findCandidateSkill_contains, hf]
        rfl
      simp only [skillMatchAux, hf, List.map_cons, List.sum_cons, ih, skillAwardSpec, hc,
        relatedBonus_eq, if_true]
    | none =>
      have hc : c.skills.contains r.skillId = false := by
        rw [← findCandidateSkill_contains, hf]
        rfl
      simp only [skillMatchAux, hf, List.map_cons, List.sum_cons, ih, skillAwardSpec, hc,
        relatedBonus_eq, Bool.false_eq_true, if_false]
      split_ifs <;> simp

theorem skillMatchAux_totalWeight (c : Candidate) (reqs : List JobRequirement) :
    (skillMatchAux c reqs).totalWeight = (reqs.map reqWeight).sum := by
  induction reqs with
  | nil => rfl
  | cons r rest ih =>
    cases hf : findCandidateSkill r.skillId c with
    | some s =>
      simp only [skillMatchAux, hf, List.map_cons, List.sum_cons, ih]
    | none =>
      simp only [skillMatchAux, hf, List.map_cons, List.sum_cons, ih]
      split_ifs <;> simp

/-- C2: for a non-empty requirements list the skill-match score is
`Σ(awarded) / Σ(weight)` with weight 2 for required and 1 for preferred
requirements, a direct hit awarding `w × 1 + w × relatedBonus × 0.3`, a miss
awarding `w × relatedBonus × 0.5`, and `relatedBonus =
min(avgRelatedDuration / 24, 1)`; with no requirements the score is 0. -/
theorem c2_skill_match_formula (requirements : List JobRequirement) (candidate : Candidate) :
    (calculateSkillMatchScore requirements candidate).score
      = if requirements.isEmpty then 0
        else (requirements.map (skillAwardSpec candidate)).sum
              / (requirements.map reqWeight).sum := by
  cases requirements with
  | nil => rfl
  | cons r rest =>
    have hpos := sum_reqWeight_pos r rest
    simp only [calculateSkillMatchScore]
    rw [skillMatchAux_totalScore, skillMatchAux_totalWeight]
    simp only [List.isEmpty_cons, Bool.false_eq_true, if_false, if_pos hpos]

/-! ### C10: the breakdown partitions the requirements -/

theorem skillMatchAux_direct (c : Candidate) (reqs : List JobRequirement) :
    (skillMatchAux c reqs).directMatches
      = (reqs.filter (fun r => c.skills.contains r.skillId)).map (fun r => r.skillId) := by
  induction reqs with
  | nil => rfl
  | cons r rest ih =>
    cases hf : findCandidateSkill r.skillId c with
    | some s =>
      have hc : c.skills.contains r.skillId = true := by
        rw [← findCandidateSkill_contains, hf]
        rfl
      simp only [skillMatchAux, hf, ih, List.filter_cons, hc, if_true, List.map_cons]
    | none =>
      have hc : c.skills.contains r.skillId = false := by
        rw [← findCandidateSkill_contains, hf]
        rfl
      simp only [skillMatchAux, hf, ih, List.filter_cons, hc, Bool.false_eq_true, if_false]
      split_ifs <;> rfl

theorem skillMatchAux_related (c : Candidate) (reqs : List JobRequirement) :
    (skillMatchAux c reqs).relatedMatches
      = (reqs.filter (fun r => !c.skills.contains r.skillId
          && decide (0 < relatedBonusSpec r.skillId c))).map (fun r => r.skillId) := by
  induction reqs with
  | nil => rfl
  | cons r rest ih =>
    cases hf : findCandidateSkill r.skillId c with
    | some s =>
      have hc : c.skills.contains r.skillId = true := by
        rw [← findCandidateSkill_contains, hf]
        rfl
      simp only [skillMatchAux, hf, ih, List.filter_cons, hc, Bool.not_true,
        Bool.false_and, Bool.false_eq_true, if_false]
    | none =>
      have hc : c.skills.contains r.skillId = false := by
        rw [← findCandidateSkill_contains, hf]
        rfl
      simp only [skillMatchAux, hf, ih, List.filter_cons, hc, Bool.not_false, Bool.true_and,
        relatedBonus_eq, decide_eq_true_eq]
      split_ifs with hb
      · simp
      · simp

theorem skillMatchAux_missing (c : Candidate) (reqs : List JobRequirement) :
    (skillMatchAux c reqs).missingSkills
      = (reqs.filter (fun r => !c.skills.contains r.skillId
          && !decide (0 < relatedBonusSpec r.skillId c))).map (fun r => r.skillId) := by
  induction reqs with
  | nil => rfl
  | cons r rest ih =>
    cases hf : findCandidateSkill r.skillId c with
    | some s =>
      have hc : c.skills.contains r.skillId = true := by
        rw [← findCandidateSkill_contains, hf]
        rfl
      simp only [skillMatchAux, hf, ih, List.filter_cons, hc, Bool.not_true,
        Bool.false_and, Bool.false_eq_true, if_false]
    | none =>
      have hc : c.skills.contains r.skillId = false := by
        rw [← findCandidateSkill_contains, hf]
        rfl
      simp only [skillMatchAux, hf, ih, List.filter_cons, hc, Bool.not_false, Bool.true_and,
        relatedBonus_eq, Bool.not_eq_true', decide_eq_false_iff_not]
      split_ifs with hb
      · simp [hb]
      · simp [not_lt.mp hb]

theorem filter_partition_length {α : Type} (l : List α) (p q : α → Bool) :
    (l.filter p).length + (l.filter (fun x => !p x && q x)).length
      + (l.filter (fun x => !p x && !q x)).length = l.length := by
  induction l with
  | nil => rfl
  | cons x t ih =>
    cases hp : p x <;> cases hq : q x <;>
      simp only [List.filter_cons, hp, hq, Bool.not_true, Bool.not_false, Bool.true_and,
        Bool.false_and, Bool.true_and, Bool.and_self, Bool.false_eq_true, if_false, if_true,
        List.length_cons] <;>
      omega

/-- C10: the generated breakdown classifies every requirement's skill id into
exactly one of matchedSkills (direct hold), relatedSkills (no direct hold but
a positive related bonus) or missingSkills (neither), so the three lists'
lengths sum to the number of requirements. -/
theorem c10_partition (requirements : List JobRequirement) (candidate : Candidate) :
    (generateScoreBreakdown requirements candidate).matchedSkills
      = (requirements.filter (fun r => candidate.skills.contains r.skillId)).map
          (fun r => r.skillId)
    ∧ (generateScoreBreakdown requirements candidate).relatedSkills
      = (requirements.filter (fun r => !candidate.skills.contains r.skillId
          && decide (0 < relatedBonusSpec r.skillId candidate))).map (fun r => r.skillId)
    ∧ (generateScoreBreakdown requirements candidate).missingSkills
      = (requirements.filter (fun r => !candidate.skills.contains r.skillId
          && !decide (0 < relatedBonusSpec r.skillId candidate))).map (fun r => r.skillId)
    ∧ (generateScoreBreakdown requirements candidate).matchedSkills.length
        + (generateScoreBreakdown requirements candidate).relatedSkills.length
        + (generateScoreBreakdown requirements candidate).missingSkills.length
      = requirements.length := by
  have hm : (generateScoreBreakdown requirements candidate).matchedSkills
      = (skillMatchAux candidate requirements).directMatches := rfl
  have hr : (generateScoreBreakdown requirements candidate).relatedSkills
      = (skillMatchAux candidate requirements).relatedMatches := rfl
  have hmi : (generateScoreBreakdown requirements candidate).missingSkills
      = (skillMatchAux candidate requirements).missingSkills := rfl
  rw [hm, hr, hmi, skillMatchAux_direct, skillMatchAux_related, skillMatchAux_missing]
  refine ⟨rfl, rfl, rfl, ?_⟩
  simp only [List.length_map]
  exact filter_partition_length requirements _ _

/-! ### C3: experience gaps -/

/-- Claim-side per-requirement gap emission of `calculateExperienceScore`. -/
def expGapSpec (candidate : Candidate) (r : JobRequirement) : Option ExperienceGap :=
  match findRelevantExperience r.skillId candidate with
  | none =>
    some ⟨r.skillId, r.minDuration, 0, r.minDuration,
      calculateLearnability r.skillId candidate⟩
  | some e =>
    if 0 < max 0 (r.minDuration - e.duration) then
      some ⟨r.skillId, r.minDuration, e.duration, max 0 (r.minDuration - e.duration),
        calculateLearnability r.skillId candidate⟩
    else none

/-- Claim-side per-requirement contribution of `calculateExperienceScore`: a
flat `weight × 0.1` with no matching experience record, else the weighted
average of the four sub-factors. -/
def expContribSpec (candidate : Candidate) (r : JobRequirement) : ℚ :=
  match findRelevantExperience r.skillId candidate with
  | none => reqWeight r * (1/10)
  | some e =>
    reqWeight r * ((min (e.duration / r.minDuration) 1 + e.complexityLevel / 5
      + (if e.hasLeadershipRole then 1 else 1/2)
      + calculateLevelAlignment e.complexityLevel r.requiredLevel) / 4)

theorem expAux_gaps (c : Candidate) (reqs : List JobRequirement) :
    (expAux c reqs).gaps = reqs.filterMap (expGapSpec c) := by
  induction reqs with
  | nil => rfl
  | cons r rest ih =>
    cases hf : findRelevantExperience r.skillId c with
    | none =>
      simp only [expAux, hf, ih, List.filterMap_cons, expGapSpec]
    | some e =>
      simp only [expAux, hf, ih, List.filterMap_cons, expGapSpec]
      split_ifs <;> rfl

theorem expAux_totalScore (c : Candidate) (reqs : List JobRequirement) :
    (expAux c reqs).totalScore = (reqs.map (expContribSpec c)).sum := by
  induction reqs with
  | nil => rfl
  | cons r rest ih =>
    cases hf : findRelevantExperience r.skillId c with
    | none =>
      simp only [expAux, hf, ih, List.map_cons, List.sum_cons, expContribSpec]
    | some e =>
      simp only [expAux, hf, ih, List.map_cons, List.sum_cons, expContribSpec]
      split_ifs <;> rfl

theorem expAux_totalWeight (c : Candidate) (reqs : List JobRequirement) :
    (expAux c reqs).totalWeight = (reqs.map reqWeight).sum := by
  induction reqs with
  | nil => rfl
  | cons r rest ih =>
    cases hf : findRelevantExperience r.skillId c with
    | none => simp only [expAux, hf, ih, List.map_cons, List.sum_cons]
    | some e =>
      simp only [expAux, hf, ih, List.map_cons, List.sum_cons]
      split_ifs <;> rfl

/-- C3: a requirement with no matching experience record contributes a flat
`weight × 0.1` and emits a gap with candidate duration 0 and the full required
duration; a matched requirement emits a gap exactly when
`max(0, required − candidate) > 0`; and every emitted gap value equals
`max(0, required − candidate)`, hence is nonnegative. -/
theorem c3_experience_gaps (requirements : List JobRequirement) (candidate : Candidate)
    (hmin : ∀ r ∈ requirements, 0 ≤ r.minDuration) :
    (calculateExperienceScore requirements candidate).gaps
        = requirements.filterMap (expGapSpec candidate)
    ∧ (∀ g ∈ (calculateExperienceScore requirements candidate).gaps,
        g.gap = max 0 (g.requiredDuration - g.candidateDuration) ∧ 0 ≤ g.gap)
    ∧ (calculateExperienceScore requirements candidate).score
        = if requirements.isEmpty then 0
          else (requirements.map (expContribSpec candidate)).sum
                / (requirements.map reqWeight).sum := by
  have hgaps : (calculateExperienceScore requirements candidate).gaps
      = requirements.filterMap (expGapSpec candidate) := by
    have : (calculateExperienceScore requirements candidate).gaps
        = (expAux candidate requirements).gaps := rfl
    rw [this, expAux_gaps]
  refine ⟨hgaps, ?_, ?_⟩
  · intro g hg
    rw [hgaps] at hg
    rcases List.mem_filterMap.mp hg with ⟨r, hr, hspec⟩
    have hr0 := hmin r hr
    unfold expGapSpec at hspec
    cases hf : findRelevantExperience r.skillId candidate with
    | none =>
      rw [hf] at hspec
      dsimp only at hspec
      rcases Option.some_inj.mp hspec with rfl
      constructor
      · simp [max_eq_right hr0]
      · exact hr0
    | some e =>
      rw [hf] at hspec
      dsimp only at hspec
      split_ifs at hspec with hgap
      rcases Option.some_inj.mp hspec with rfl
      exact ⟨rfl, le_max_left _ _⟩
  · cases requirements with
    | nil => rfl
    | cons r rest =>
      have hpos := sum_reqWeight_pos r rest
      simp only [calculateExperienceScore]
      rw [expAux_totalScore, expAux_totalWeight]
      simp only [List.isEmpty_cons, Bool.false_eq_true, if_false, if_pos hpos]

/-- C3 witness: the single-requirement sample job and the sample candidate
(whose only experience record is for a different skill). -/
theorem c3_experience_gaps_witness :
    (calculateExperienceScore jobSample.requirements candSample).gaps
        = jobSample.requirements.filterMap (expGapSpec candSample)
    ∧ (∀ g ∈ (calculateExperienceScore jobSample.requirements candSample).gaps,
        g.gap = max 0 (g.requiredDuration - g.candidateDuration) ∧ 0 ≤ g.gap)
    ∧ (calculateExperienceScore jobSample.requirements candSample).score
        = if jobSample.requirements.isEmpty then 0
          else (jobSample.requirements.map (expContribSpec candSample)).sum
                / (jobSample.requirements.map reqWeight).sum :=
  c3_experience_gaps jobSample.requirements candSample (by decide)

/-! ### C1: score ranges -/

theorem matchingScore_skillMatch (c : Candidate) (j : Job) :
    (calculateMatchingScore c j).skillMatchScore
      = roundTo2 (calculateSkillMatchScore j.requirements c).score := rfl

theorem matchingScore_experience (c : Candidate) (j : Job) :
    (calculateMatchingScore c j).experienceScore
      = roundTo2 (calculateExperienceScore j.requirements c).score := rfl

theorem matchingScore_transferable (c : Candidate) (j : Job) :
    (calculateMatchingScore c j).transferableSkillsScore
      = roundTo2 (calculateTransferableSkillsScore j.requirements c).score := rfl

theorem matchingScore_potential (c : Candidate) (j : Job) :
    (calculateMatchingScore c j).potentialScore
      = roundTo2 (calculatePotentialScore c).score := rfl

theorem matchingScore_overall (c : Candidate) (j : Job) :
    (calculateMatchingScore c j).overallScore
      = roundTo2 ((calculateSkillMatchScore j.requirements c).score * (4/10)
          + (calculateExperienceScore j.requirements c).score * (3/10)
          + (calculateTransferableSkillsScore j.requirements c).score * (2/10)
          + (calculatePotentialScore c).score * (1/10)) := rfl

theorem relatedBonus_sample : calculateRelatedSkillsBonus "react" candSample = 1 := by
  have hT : findTransferableSkills "react" candSample
      = [⟨"exp-1", "javascript", 24, 3, false, none, []⟩] := by decide
  simp only [calculateRelatedSkillsBonus, hT]
  norm_num

theorem skillMatch_sample :
    (calculateSkillMatchScore jobSample.requirements candSample).score = 13/10 := by
  have hfc : findCandidateSkill "react" candSample = some "react" := by decide
  simp only [calculateSkillMatchScore, jobSample, skillMatchAux, hfc, relatedBonus_sample,
    reqWeight]
  norm_num

/-- C1 counterexample: for the sample candidate (direct `react` skill plus 24
months of related `javascript` experience) and the single-requirement sample
job, the skill-match score is 1.3, outside `[0, 1]`. -/
theorem c1_skillMatch_exceeds_one :
    1 < (calculateMatchingScore candSample jobSample).skillMatchScore := by
  rw [matchingScore_skillMatch, skillMatch_sample]
  have h2 : roundTo2 (13/10) = 13/10 := by
    unfold roundTo2 jsRound
    norm_num
  rw [h2]
  norm_num

theorem sum_nonneg_of_mem {l : List ℚ} (h : ∀ x ∈ l, 0 ≤ x) : 0 ≤ l.sum :=
  List.sum_nonneg h

theorem sum_le_length_of_le_one {l : List ℚ} (h : ∀ x ∈ l, x ≤ 1) :
    l.sum ≤ (l.length : ℚ) := by
  induction l with
  | nil => simp
  | cons x t ih =>
    have hx := h x (List.mem_cons_self x t)
    have ht := ih (fun y hy => h y (List.mem_cons_of_mem x hy))
    simp only [List.sum_cons, List.length_cons, Nat.cast_add, Nat.cast_one]
    linarith

theorem avg_bounds {l : List ℚ} (h : ∀ x ∈ l, 0 ≤ x ∧ x ≤ 1) (hne : l ≠ []) :
    0 ≤ l.sum / (l.length : ℚ) ∧ l.sum / (l.length : ℚ) ≤ 1 := by
  have hlen : 0 < (l.length : ℚ) := by
    have := List.length_pos.mpr hne
    exact_mod_cast this
  constructor
  · exact div_nonneg (sum_nonneg_of_mem (fun x hx => (h x hx).1)) hlen.le
  · rw [div_le_one hlen]
    exact sum_le_length_of_le_one (fun x hx => (h x hx).2)

theorem mem_findTransferableSkills {s : String} {c : Candidate} {e : Experience}
    (h : e ∈ findTransferableSkills s c) : e ∈ c.experience := by
  rw [findTransferableSkills_eq] at h
  exact List.mem_filter.mp h |>.1

theorem relatedBonus_nonneg (s : String) (c : Candidate)
    (hd : ∀ e ∈ c.experience, 0 ≤ e.duration) : 0 ≤ calculateRelatedSkillsBonus s c := by
  simp only [calculateRelatedSkillsBonus]
  split_ifs with h
  · exact le_rfl
  · apply le_min _ zero_le_one
    apply div_nonneg _ (by norm_num)
    apply div_nonneg _ (Nat.cast_nonneg _)
    apply sum_nonneg_of_mem
    intro x hx
    rcases List.mem_map.mp hx with ⟨e, he, rfl⟩
    exact hd e (mem_findTransferableSkills he)

theorem relatedBonus_le_one (s : String) (c : Candidate) :
    calculateRelatedSkillsBonus s c ≤ 1 := by
  simp only [calculateRelatedSkillsBonus]
  split_ifs with h
  · norm_num
  · exact min_le_right _ _

theorem relatedBonusSpec_nonneg (s : String) (c : Candidate)
    (hd : ∀ e ∈ c.experience, 0 ≤ e.duration) : 0 ≤ relatedBonusSpec s c := by
  rw [← relatedBonus_eq]
  exact relatedBonus_nonneg s c hd

theorem relatedBonusSpec_le_one (s : String) (c : Candidate) : relatedBonusSpec s c ≤ 1 := by
  rw [← relatedBonus_eq]
  exact relatedBonus_le_one s c

theorem reqWeight_nonneg (r : JobRequirement) : 0 ≤ reqWeight r :=
  le_trans (by norm_num) (reqWeight_one_le r)

theorem skillAwardSpec_nonneg (c : Candidate) (r : JobRequirement)
    (hd : ∀ e ∈ c.experience, 0 ≤ e.duration) : 0 ≤ skillAwardSpec c r := by
  unfold skillAwardSpec
  have hw := reqWeight_nonneg r
  have hb := relatedBonusSpec_nonneg r.skillId c hd
  split_ifs <;> nlinarith

theorem skillAwardSpec_le (c : Candidate) (r : JobRequirement)
    (hd : ∀ e ∈ c.experience, 0 ≤ e.duration) :
    skillAwardSpec c r ≤ (13/10) * reqWeight r := by
  unfold skillAwardSpec
  have hw := reqWeight_nonneg r
  have hb0 := relatedBonusSpec_nonneg r.skillId c hd
  have hb1 := relatedBonusSpec_le_one r.skillId c
  split_ifs <;> nlinarith

theorem sum_map_mul_left_const (l : List JobRequirement) (f : JobRequirement → ℚ) (a : ℚ) :
    (l.map (fun x => a * f x)).sum = a * (l.map f).sum := by
  induction l with
  | nil => simp
  | cons x t ih => simp [ih, mul_add]

theorem skillScore_bounds (reqs : List JobRequirement) (c : Candidate)
    (hd : ∀ e ∈ c.experience, 0 ≤ e.duration) :
    0 ≤ (calculateSkillMatchScore reqs c).score
      ∧ (calculateSkillMatchScore reqs c).score ≤ 13/10 := by
  have hsc : (calculateSkillMatchScore reqs c).score
      = if 0 < (skillMatchAux c reqs).totalWeight then
          (skillMatchAux c reqs).totalScore / (skillMatchAux c reqs).totalWeight
        else 0 := rfl
  rw [hsc, skillMatchAux_totalScore, skillMatchAux_totalWeight]
  split_ifs with hw
  · constructor
    · apply div_nonneg _ hw.le
      apply sum_nonneg_of_mem
      intro x hx
      rcases List.mem_map.mp hx with ⟨r, _, rfl⟩
      exact skillAwardSpec_nonneg c r hd
    · rw [div_le_iff₀ hw]
      calc (reqs.map (skillAwardSpec c)).sum
          ≤ (reqs.map (fun r => (13/10) * reqWeight r)).sum := by
            apply List.sum_le_sum
            intro r _
            exact skillAwardSpec_le c r hd
        _ = (13/10) * (reqs.map reqWeight).sum := sum_map_mul_left_const reqs reqWeight (13/10)
        _ = 13/10 * (reqs.map reqWeight).sum := by ring
  · norm_num

theorem levelAlignment_bounds (a b : ℚ) :
    0 ≤ calculateLevelAlignment a b ∧ calculateLevelAlignment a b ≤ 1 := by
  unfold calculateLevelAlignment
  constructor
  · exact le_max_left _ _
  · apply max_le zero_le_one
    have : 0 ≤ |a - b| / 5 := by positivity
    linarith

theorem expContribSpec_bounds (c : Candidate) (r : JobRequirement)
    (hd : ∀ e ∈ c.experience, 0 ≤ e.duration)
    (hc5 : ∀ e ∈ c.experience, 0 ≤ e.complexityLevel ∧ e.complexityLevel ≤ 5)
    (hm : 0 ≤ r.minDuration) :
    0 ≤ expContribSpec c r ∧ expContribSpec c r ≤ reqWeight r := by
  have hw1 := reqWeight_one_le r
  unfold expContribSpec
  cases hf : findRelevantExperience r.skillId c with
  | none =>
    constructor <;> nlinarith
  | some e =>
    have he : e ∈ c.experience := by
      unfold findRelevantExperience at hf
      exact List.mem_of_find?_eq_some hf
    have hdur := hd e he
    have hcl := hc5 e he
    have h1a : 0 ≤ min (e.duration / r.minDuration) 1 :=
      le_min (div_nonneg hdur hm) zero_le_one
    have h1b : min (e.duration / r.minDuration) 1 ≤ 1 := min_le_right _ _
    have h2a : 0 ≤ e.complexityLevel / 5 := by linarith [hcl.1]
    have h2b : e.complexityLevel / 5 ≤ 1 := by linarith [hcl.2]
    have h3a : (0:ℚ) ≤ if e.hasLeadershipRole then 1 else 1/2 := by split_ifs <;> norm_num
    have h3b : (if e.hasLeadershipRole then (1:ℚ) else 1/2) ≤ 1 := by split_ifs <;> norm_num
    have h4 := levelAlignment_bounds e.complexityLevel r.requiredLevel
    constructor <;> nlinarith [h4.1, h4.2]

theorem expScore_bounds (reqs : List JobRequirement) (c : Candidate)
    (hd : ∀ e ∈ c.experience, 0 ≤ e.duration)
    (hc5 : ∀ e ∈ c.experience, 0 ≤ e.complexityLevel ∧ e.complexityLevel ≤ 5)
    (hm : ∀ r ∈ reqs, 0 ≤ r.minDuration) :
    0 ≤ (calculateExperienceScore reqs c).score
      ∧ (calculateExperienceScore reqs c).score ≤ 1 := by
  have hsc : (calculateExperienceScore reqs c).score
      = if 0 < (expAux c reqs).totalWeight then
          (expAux c reqs).totalScore / (expAux c reqs).totalWeight
        else 0 := rfl
  rw [hsc, expAux_totalScore, expAux_totalWeight]
  split_ifs with hw
  · constructor
    · apply div_nonneg _ hw.le
      apply sum_nonneg_of_mem
      intro x hx
      rcases List.mem_map.mp hx with ⟨r, hr, rfl⟩
      exact (expContribSpec_bounds c r hd hc5 (hm r hr)).1
    · rw [div_le_one hw]
      apply List.sum_le_sum
      intro r hr
      exact (expContribSpec_bounds c r hd hc5 (hm r hr)).2
  · norm_num

theorem mem_skills_of_getSkillById {s : String} {sk : Skill} (h : getSkillById s = some sk) :
    sk ∈ skills := by
  have hmap : ∀ p ∈ skillMapList, p.2 ∈ skills := by decide
  unfold getSkillById lookupFun at h
  rcases Option.map_eq_some'.mp h with ⟨p, hp, rfl⟩
  exact hmap p (List.mem_of_find?_eq_some hp)

theorem skills_difficulty_range :
    ∀ sk ∈ skills, 1 ≤ sk.difficultyLevel ∧ sk.difficultyLevel ≤ 5 := by decide

theorem transferabilityOf_bounds (r : JobRequirement) (e : Experience)
    (hd : 0 ≤ e.duration) :
    0 ≤ transferabilityOf r e ∧ transferabilityOf r e ≤ 1 := by
  unfold transferabilityOf
  cases h1 : getSkillById e.skillId with
  | none => simp
  | some skillData =>
    cases h2 : getSkillById r.skillId with
    | none => simp
    | some requiredSkillData =>
      have d1 := skills_difficulty_range _ (mem_skills_of_getSkillById h1)
      have d2 := skills_difficulty_range _ (mem_skills_of_getSkillById h2)
      have habs : |skillData.difficultyLevel - requiredSkillData.difficultyLevel| ≤ 4 := by
        rw [abs_le]
        constructor <;> linarith [d1.1, d1.2, d2.1, d2.2]
      have habs0 : 0 ≤ |skillData.difficultyLevel - requiredSkillData.difficultyLevel| :=
        abs_nonneg _
      have hb0 : (0:ℚ) ≤ 1 - |skillData.difficultyLevel - requiredSkillData.difficultyLevel| / 5 := by
        linarith
      have hb1 : 1 - |skillData.difficultyLevel - requiredSkillData.difficultyLevel| / 5 ≤ 1 := by
        linarith
      have hf0 : 0 ≤ min (e.duration / 24) 1 := le_min (by positivity) zero_le_one
      have hf1 : min (e.duration / 24) 1 ≤ 1 := min_le_right _ _
      constructor <;> nlinarith

theorem transAux_bounds (reqs : List JobRequirement) (c : Candidate)
    (hd : ∀ e ∈ c.experience, 0 ≤ e.duration) :
    0 ≤ (transAux c reqs).1 ∧ (transAux c reqs).1 ≤ (transAux c reqs).2.1
      ∧ 0 ≤ (transAux c reqs).2.1 := by
  induction reqs with
  | nil => refine ⟨le_rfl, le_rfl, le_rfl⟩
  | cons r rest ih =>
    have hw1 := reqWeight_one_le r
    by_cases hfound : 0 < (findTransferableSkills r.skillId c).length
    · have hne : (findTransferableSkills r.skillId c).map (transferabilityOf r) ≠ [] := by
        intro hcon
        rw [List.map_eq_nil_iff] at hcon
        rw [hcon] at hfound
        simp at hfound
      have havg := avg_bounds (l := (findTransferableSkills r.skillId c).map (transferabilityOf r))
        (fun x hx => by
          rcases List.mem_map.mp hx with ⟨e, he, rfl⟩
          exact transferabilityOf_bounds r e (hd e (mem_findTransferableSkills he))) hne
      rw [List.length_map] at havg
      simp only [transAux, if_pos hfound, List.length_map]
      refine ⟨?_, ?_, ?_⟩ <;> nlinarith [ih.1, ih.2.1, ih.2.2, havg.1, havg.2]
    · simp only [transAux, if_neg hfound]
      refine ⟨?_, ?_, ?_⟩ <;> nlinarith [ih.1, ih.2.1, ih.2.2]

theorem transScore_bounds (reqs : List JobRequirement) (c : Candidate)
    (hd : ∀ e ∈ c.experience, 0 ≤ e.duration) :
    0 ≤ (calculateTransferableSkillsScore reqs c).score
      ∧ (calculateTransferableSkillsScore reqs c).score ≤ 1 := by
  have hsc : (calculateTransferableSkillsScore reqs c).score
      = if 0 < (transAux c reqs).2.1 then (transAux c reqs).1 / (transAux c reqs).2.1
        else 0 := rfl
  rw [hsc]
  have hb := transAux_bounds reqs c hd
  split_ifs with hw
  · exact ⟨div_nonneg hb.1 hw.le, by rw [div_le_one hw]; exact hb.2.1⟩
  · norm_num

theorem learningIndicators_bounds (c : Candidate) :
    0 ≤ calculateLearningIndicators c ∧ calculateLearningIndicators c ≤ 1 := by
  simp only [calculateLearningIndicators]
  split_ifs <;> norm_num

theorem educationScore_bounds (education : List Education) :
    0 ≤ calculateEducationScore education ∧ calculateEducationScore education ≤ 1 := by
  simp only [calculateEducationScore]
  split_ifs with h
  · norm_num
  · have hfold : ∀ (l : List Education) (init : ℚ), init ≤ l.foldl
        (fun highest edu =>
          let degreeLevel := getDegreeLevel edu.degree
          if highest < degreeLevel then degreeLevel else highest) init := by
      intro l
      induction l with
      | nil => intro init; exact le_rfl
      | cons x t ih =>
        intro init
        refine le_trans ?_ (ih _)
        dsimp only
        split_ifs with hx
        · exact hx.le
        · exact le_rfl
    have h0 := hfold education 0
    constructor
    · apply le_min _ zero_le_one
      positivity
    · exact min_le_right _ _

theorem countIncreases_le (l : List Experience) :
    countComplexityIncreases l ≤ l.length - 1 := by
  induction l with
  | nil => simp [countComplexityIncreases]
  | cons a t ih =>
    cases t with
    | nil => simp [countComplexityIncreases]
    | cons b rest =>
      have : countComplexityIncreases (a :: b :: rest)
          = (if a.complexityLevel < b.complexityLevel then 1 else 0)
            + countComplexityIncreases (b :: rest) := rfl
      rw [this]
      have hlen : (b :: rest).length - 1 = rest.length := by simp
      rw [hlen] at ih
      split_ifs <;> simp <;> omega

theorem growth_bounds (c : Candidate) :
    0 ≤ calculateGrowthTrajectory c ∧ calculateGrowthTrajectory c ≤ 1 := by
  simp only [calculateGrowthTrajectory]
  split_ifs with h
  · norm_num
  · push_neg at h
    have hlen : (sortByDuration c.experience).length = c.experience.length := by
      unfold sortByDuration
      exact List.length_insertionSort _ _
    have h2 : 2 ≤ (sortByDuration c.experience).length := by omega
    have hden : (1:ℚ) ≤ ((sortByDuration c.experience).length : ℚ) - 1 := by
      have : (2:ℚ) ≤ ((sortByDuration c.experience).length : ℚ) := by exact_mod_cast h2
      linarith
    have hk : (countComplexityIncreases (sortByDuration c.experience) : ℚ)
        ≤ ((sortByDuration c.experience).length : ℚ) - 1 := by
      have hnat := countIncreases_le (sortByDuration c.experience)
      have : (countComplexityIncreases (sortByDuration c.experience) : ℚ)
          ≤ (((sortByDuration c.experience).length - 1 : ℕ) : ℚ) := by exact_mod_cast hnat
      refine le_trans this ?_
      have h1 : 1 ≤ (sortByDuration c.experience).length := by omega
      rw [Nat.cast_sub h1]
      norm_num
    constructor
    · positivity
    · rw [div_le_one (by linarith)]
      linarith

theorem potential_bounds (c : Candidate) :
    0 ≤ (calculatePotentialScore c).score ∧ (calculatePotentialScore c).score ≤ 1 := by
  have hsc : (calculatePotentialScore c).score
      = calculateEducationScore c.education * (3/10)
        + calculateLearningIndicators c * (4/10)
        + calculateGrowthTrajectory c * (3/10) := rfl
  rw [hsc]
  have h1 := educationScore_bounds c.education
  have h2 := learningIndicators_bounds c
  have h3 := growth_bounds c
  constructor <;> nlinarith [h1.1, h1.2, h2.1, h2.2, h3.1, h3.2]

theorem roundTo2_bounds {q : ℚ} (z : ℤ) (h0 : 0 ≤ q) (hz : q ≤ (z : ℚ)/100) :
    0 ≤ roundTo2 q ∧ roundTo2 q ≤ (z : ℚ)/100 := by
  unfold roundTo2 jsRound
  constructor
  · apply div_nonneg _ (by norm_num)
    have : (0:ℤ) ≤ ⌊q * 100 + 1/2⌋ := Int.le_floor.mpr (by push_cast; linarith)
    exact_mod_cast this
  · have hlt : q * 100 + 1/2 < ((z + 1 : ℤ) : ℚ) := by push_cast; linarith
    have hfl : ⌊q * 100 + 1/2⌋ < z + 1 := Int.floor_lt.mpr hlt
    have hle : ⌊q * 100 + 1/2⌋ ≤ z := by omega
    have : ((⌊q * 100 + 1/2⌋ : ℤ) : ℚ) ≤ (z : ℚ) := by exact_mod_cast hle
    have h100 : (0:ℚ) < 100 := by norm_num
    exact (div_le_div_iff_of_pos_right h100).mpr this

/-- C1 (amended): under the data-model ranges (nonnegative experience
durations, complexity levels within [0, 5], positive required durations) the
experience, transferable-skills and potential scores lie in [0, 1], but the
skill-match score can only be bounded by [0, 1.3] (a direct hit plus a full
related-skills bonus awards 1.3 × weight) and the overall score by [0, 1.12]. -/
theorem c1_score_bounds (candidate : Candidate) (job : Job)
    (hd : ∀ e ∈ candidate.experience, 0 ≤ e.duration)
    (hc5 : ∀ e ∈ candidate.experience, 0 ≤ e.complexityLevel ∧ e.complexityLevel ≤ 5)
    (hm : ∀ r ∈ job.requirements, 0 < r.minDuration) :
    (0 ≤ (calculateMatchingScore candidate job).skillMatchScore
      ∧ (calculateMatchingScore candidate job).skillMatchScore ≤ 13/10)
    ∧ (0 ≤ (calculateMatchingScore candidate job).experienceScore
      ∧ (calculateMatchingScore candidate job).experienceScore ≤ 1)
    ∧ (0 ≤ (calculateMatchingScore candidate job).transferableSkillsScore
      ∧ (calculateMatchingScore candidate job).transferableSkillsScore ≤ 1)
    ∧ (0 ≤ (calculateMatchingScore candidate job).potentialScore
      ∧ (calculateMatchingScore candidate job).potentialScore ≤ 1)
    ∧ (0 ≤ (calculateMatchingScore candidate job).overallScore
      ∧ (calculateMatchingScore candidate job).overallScore ≤ 112/100) := by
  have hm' : ∀ r ∈ job.requirements, 0 ≤ r.minDuration := fun r hr => (hm r hr).le
  have hs := skillScore_bounds job.requirements candidate hd
  have he := expScore_bounds job.requirements candidate hd hc5 hm'
  have ht := transScore_bounds job.requirements candidate hd
  have hp := potential_bounds candidate
  refine ⟨?_, ?_, ?_, ?_, ?_⟩
  · rw [matchingScore_skillMatch]
    have := roundTo2_bounds 130 hs.1 (by push_cast; linarith [hs.2])
    constructor
    · exact this.1
    · refine le_trans this.2 ?_
      norm_num
  · rw [matchingScore_experience]
    have := roundTo2_bounds 100 he.1 (by push_cast; linarith [he.2])
    constructor
    · exact this.1
    · refine le_trans this.2 ?_
      norm_num
  · rw [matchingScore_transferable]
    have := roundTo2_bounds 100 ht.1 (by push_cast; linarith [ht.2])
    constructor
    · exact this.1
    · refine le_trans this.2 ?_
      norm_num
  · rw [matchingScore_potential]
    have := roundTo2_bounds 100 hp.1 (by push_cast; linarith [hp.2])
    constructor
    · exact this.1
    · refine le_trans this.2 ?_
      norm_num
  · rw [matchingScore_overall]
    have h0 : 0 ≤ (calculateSkillMatchScore job.requirements candidate).score * (4/10)
        + (calculateExperienceScore job.requirements candidate).score * (3/10)
        + (calculateTransferableSkillsScore job.requirements candidate).score * (2/10)
        + (calculatePotentialScore candidate).score * (1/10) := by
      nlinarith [hs.1, he.1, ht.1, hp.1]
    have h1 : (calculateSkillMatchScore job.requirements candidate).score * (4/10)
        + (calculateExperienceScore job.requirements candidate).score * (3/10)
        + (calculateTransferableSkillsScore job.requirements candidate).score * (2/10)
        + (calculatePotentialScore candidate).score * (1/10) ≤ (112 : ℤ)/100 := by
      push_cast
      nlinarith [hs.2, he.2, ht.2, hp.2]
    have := roundTo2_bounds 112 h0 h1
    constructor
    · exact this.1
    · refine le_trans this.2 ?_
      norm_num

/-- C1 witness: the amended bounds instantiated at the sample inputs. -/
theorem c1_score_bounds_witness :
    (0 ≤ (calculateMatchingScore candSample jobSample).skillMatchScore
      ∧ (calculateMatchingScore candSample jobSample).skillMatchScore ≤ 13/10)
    ∧ (0 ≤ (calculateMatchingScore candSample jobSample).experienceScore
      ∧ (calculateMatchingScore candSample jobSample).experienceScore ≤ 1)
    ∧ (0 ≤ (calculateMatchingScore candSample jobSample).transferableSkillsScore
      ∧ (calculateMatchingScore candSample jobSample).transferableSkillsScore ≤ 1)
    ∧ (0 ≤ (calculateMatchingScore candSample jobSample).potentialScore
      ∧ (calculateMatchingScore candSample jobSample).potentialScore ≤ 1)
    ∧ (0 ≤ (calculateMatchingScore candSample jobSample).overallScore
      ∧ (calculateMatchingScore candSample jobSample).overallScore ≤ 112/100) :=
  c1_score_bounds candSample jobSample (by decide) (by decide) (by decide)

/-! ### C6: skill-name resolution order -/

theorem lookup_ext {α : Type} (l1 l2 : List (String × α))
    (h12 : ∀ p ∈ l1, ∃ p2 ∈ l2, p.1 = p2.1)
    (h21 : ∀ p ∈ l2, ∃ p1 ∈ l1, p.1 = p1.1)
    (hcons : ∀ p ∈ l1, ∀ p2 ∈ l2, p.1 = p2.1 → p.2 = p2.2)
    (q : String) : lookupFun l1 q = lookupFun l2 q := by
  unfold lookupFun
  cases hf1 : l1.find? (fun p => p.1 == q) with
  | none =>
    cases hf2 : l2.find? (fun p => p.1 == q) with
    | none => rfl
    | some p2 =>
      exfalso
      have hmem2 := List.mem_of_find?_eq_some hf2
      have hkey2 : p2.1 = q := by simpa using List.find?_some hf2
      rcases h21 p2 hmem2 with ⟨p1, hp1, hkeq⟩
      have hno := List.find?_eq_none.mp hf1 p1 hp1
      rw [← hkeq, hkey2] at hno
      simp at hno
  | some p1 =>
    have hmem1 := List.mem_of_find?_eq_some hf1
    have hkey1 : p1.1 = q := by simpa using List.find?_some hf1
    rcases h12 p1 hmem1 with ⟨p2, hp2mem, hkeq⟩
    cases hf2 : l2.find? (fun p => p.1 == q) with
    | none =>
      exfalso
      have hno := List.find?_eq_none.mp hf2 p2 hp2mem
      rw [← hkeq, hkey1] at hno
      simp at hno
    | some p2f =>
      have hmem2 := List.mem_of_find?_eq_some hf2
      have hkey2 : p2f.1 = q := by simpa using List.find?_some hf2
      have hv := hcons p1 hmem1 p2f hmem2 (by rw [hkey1, hkey2])
      simp [hv]

/-- The registry read as a key/value list the way the claim describes the
exact-match step: for each skill, its (lowercased) id and canonical name. -/
def pairList : List Skill → List (String × Skill)
  | [] => []
  | sk :: rest => (jsToLower sk.id, sk) :: (jsToLower sk.canonicalName, sk) :: pairList rest

/-- Claim-side step 1: exact case-insensitive match on a skill id or
canonical name, scanning the registry in order. -/
def specSkillLookup (q : String) : Option Skill :=
  skills.find? (fun sk => jsToLower sk.id == q || jsToLower sk.canonicalName == q)

theorem specSkillLookup_pairList (q : String) :
    specSkillLookup q = lookupFun (pairList skills) q := by
  unfold specSkillLookup
  induction skills with
  | nil => rfl
  | cons sk rest ih =>
    by_cases h1 : jsToLower sk.id == q
    · simp [pairList, lookupFun, List.find?, h1]
    · by_cases h2 : jsToLower sk.canonicalName == q
      · simp [pairList, lookupFun, List.find?, h1, h2]
      · simpa [pairList, lookupFun, List.find?, h1, h2] using ih

theorem skillMap_lookup_eq (q : String) : lookupFun skillMapList q = specSkillLookup q := by
  rw [specSkillLookup_pairList]
  exact lookup_ext skillMapList (pairList skills) (by decide) (by decide) (by decide) q

/-- The alias index as the claim describes it: each (lowercased) alias paired
with its skill's canonical name, in registry order. -/
def aliasPairs : List Skill → List (String × String)
  | [] => []
  | sk :: rest => sk.aliases.map (fun a => (jsToLower a, sk.canonicalName)) ++ aliasPairs rest

/-- Claim-side step 2: exact case-insensitive match in the alias index. -/
def specAliasLookup (q : String) : Option String := lookupFun (aliasPairs skills) q

theorem aliasMap_lookup_eq (q : String) : lookupFun aliasMapList q = specAliasLookup q := by
  unfold specAliasLookup
  exact lookup_ext aliasMapList (aliasPairs skills) (by decide) (by decide) (by decide) q

/-- Claim-side step 3b: substring containment in either direction against the
canonical names and aliases, first registry hit wins. -/
def fuzzyScanSpec (q : String) : Option Skill :=
  skills.find? (fun sk =>
    (jsIncludes (jsToLower sk.canonicalName) q || jsIncludes q (jsToLower sk.canonicalName))
    || sk.aliases.any (fun a => jsIncludes (jsToLower a) q || jsIncludes q (jsToLower a)))

theorem fuzzyScan_eq_find? (l : List Skill) (q : String) :
    fuzzyScan l q = l.find? (fun sk =>
      (jsIncludes (jsToLower sk.canonicalName) q || jsIncludes q (jsToLower sk.canonicalName))
      || sk.aliases.any (fun a => jsIncludes (jsToLower a) q || jsIncludes q (jsToLower a))) := by
  induction l with
  | nil => rfl
  | cons sk rest ih =>
    by_cases h1 : jsIncludes (jsToLower sk.canonicalName) q
        || jsIncludes q (jsToLower sk.canonicalName)
    · simp [fuzzyScan, List.find?, h1]
    · by_cases h2 : sk.aliases.any (fun a => jsIncludes (jsToLower a) q || jsIncludes q (jsToLower a))
      · simp [fuzzyScan, List.find?, h1, h2]
      · simpa [fuzzyScan, List.find?, h1, h2] using ih

/-- The claim's four-step resolution cascade, written against the registry
itself: (1) exact id/canonical-name match, (2) exact alias-index match,
(3) the fixed variant table and then the substring scan, (4) the input
returned unchanged. -/
def normalizeSpec (s : String) : String :=
  let q := jsTrim (jsToLower s)
  match specSkillLookup q with
  | some sk => sk.canonicalName
  | none =>
    match specAliasLookup q with
    | some canonical => canonical
    | none =>
      match
        (match lookupFun fuzzyMatchVariations q with
         | some v => specSkillLookup v
         | none => fuzzyScanSpec q) with
      | some sk => sk.canonicalName
      | none => s

/-- C6: `normalizeSkill` resolves in the claimed order — exact id/canonical
match, then alias index, then the variant table followed by the substring
scan, and otherwise returns its input unchanged (so it is total); the spec's
concrete examples are reproduced. -/
theorem c6_normalize_resolution :
    (∀ s : String, normalizeSkill s = normalizeSpec s)
    ∧ normalizeSkill "ReactJS" = "React"
    ∧ normalizeSkill "React.js" = "React"
    ∧ normalizeSkill "js" = "JavaScript"
    ∧ normalizeSkill "FooBarSkill" = "FooBarSkill" := by
  refine ⟨?_, by decide, by decide, by decide, by decide⟩
  intro s
  unfold normalizeSkill normalizeSpec findFuzzyMatch fuzzyScanSpec
  dsimp only
  rw [skillMap_lookup_eq, aliasMap_lookup_eq, fuzzyScan_eq_find?]
  cases lookupFun fuzzyMatchVariations (jsTrim (jsToLower s)) with
  | some v =>
    dsimp only
    rw [skillMap_lookup_eq]
  | none => rfl

/-! ### C7: two-pass skill extraction -/

theorem extract_confidence (text : String) :
    (extractSkillsFromText text).confidence =
      if (extractSkillsFromText text).matchedTerms.isEmpty then 0
      else ((extractSkillsFromText text).matchedTerms.length : ℚ)
            / (((extractSkillsFromText text).matchedTerms.length : ℚ)
               + ((extractSkillsFromText text).unmatchedTerms.length : ℚ)) := by
  unfold extractSkillsFromText
  dsimp only
  set p2 := (jsSplitWs (jsToLower text)).foldl pass2Step
    (((skills.foldl (pass1Step (jsToLower text)) ([], [], [])).1,
      (skills.foldl (pass1Step (jsToLower text)) ([], [], [])).2.1,
      (skills.foldl (pass1Step (jsToLower text)) ([], [], [])).2.2, [])) with hp2
  by_cases h : 0 < p2.2.2.1.length
  · have hne : p2.2.2.1.isEmpty = false := by
      rw [Bool.eq_false_iff]
      intro hcon
      rw [isEmpty_iff_len] at hcon
      omega
    rw [if_pos h, hne]
    simp only [Bool.false_eq_true, if_false]
    have hm1 : (1:ℚ) ≤ (p2.2.2.1.length : ℚ) := by exact_mod_cast h
    have hu0 : (0:ℚ) ≤ (p2.2.2.2.length : ℚ) := by positivity
    have hden : (0:ℚ) < (p2.2.2.1.length : ℚ) + (p2.2.2.2.length : ℚ) := by linarith
    rw [min_eq_right]
    rw [div_le_one hden]
    linarith
  · have hee : p2.2.2.1.isEmpty = true := by
      rw [isEmpty_iff_len]
      omega
    rw [if_neg h, hee]
    simp

theorem extract_react_matched : (extractSkillsFromText "react").matchedTerms = ["react"] := by
  decide

theorem extract_react_unmatched :
    (extractSkillsFromText "react").unmatchedTerms = ["react"] := by decide

/-- C7 counterexample: on the input `"react"` the lone pass-1 match is
tokenized again by pass 2 and counted as unmatched, so the confidence is 1/2,
while tokenizing only the remaining text would leave no unmatched term and
give confidence 1; and on `"typescript javascript"` the extraction order is
registry order (with `Java` extracted from inside the word `javascript`), not
first-occurrence order in the text. -/
theorem c7_two_pass_counterexample :
    (extractSkillsFromText "react").matchedTerms = ["react"]
    ∧ (extractSkillsFromText "react").unmatchedTerms = ["react"]
    ∧ (extractSkillsFromText "react").confidence = 1/2
    ∧ (extractSkillsFromText "typescript javascript").skills
        = ["JavaScript", "TypeScript", "Java"] := by
  refine ⟨extract_react_matched, extract_react_unmatched, ?_, by decide⟩
  rw [extract_confidence, extract_react_matched, extract_react_unmatched]
  norm_num

/-- Claim-side pass 1 (amended): scan the registry in order for exact
canonical-name/alias substrings of the text, deduplicating by skill id;
each hit records the skill and the matched term. -/
def pass1Spec (normText : String) : List Skill → List String → List (Skill × String)
  | [], _ => []
  | sk :: rest, found =>
    if jsIncludes normText (jsToLower sk.canonicalName) && !(found.contains sk.id) then
      (sk, jsToLower sk.canonicalName) :: pass1Spec normText rest (found ++ [sk.id])
    else
      match (sk.aliases.map jsToLower).find?
          (fun a => jsIncludes normText a && !(found.contains sk.id)) with
      | some a => (sk, a) :: pass1Spec normText rest (found ++ [sk.id])
      | none => pass1Spec normText rest found

/-- Claim-side pass 2 (amended): tokenize the whole text on whitespace; a
token shorter than 3 characters counts as unmatched without fuzzy matching,
a fuzzy-matched token whose skill id is new is recorded, and any other token
(including one whose skill was already found) counts as unmatched. -/
def pass2Spec (found : List String) : List String → List (Skill × String) × List String
  | [] => ([], [])
  | word :: rest =>
    if word.length < 3 then
      ((pass2Spec found rest).1, word :: (pass2Spec found rest).2)
    else
      match findFuzzyMatch word with
      | some sk =>
        if !(found.contains sk.id) then
          ((sk, word) :: (pass2Spec (found ++ [sk.id]) rest).1,
           (pass2Spec (found ++ [sk.id]) rest).2)
        else ((pass2Spec found rest).1, word :: (pass2Spec found rest).2)
      | none => ((pass2Spec found rest).1, word :: (pass2Spec found rest).2)

theorem pass1_fold (normText : String) (l : List Skill) :
    ∀ ex found mt : List String,
    l.foldl (pass1Step normText) (ex, found, mt)
      = (ex ++ (pass1Spec normText l found).map (fun p => p.1.canonicalName),
         found ++ (pass1Spec normText l found).map (fun p => p.1.id),
         mt ++ (pass1Spec normText l found).map (fun p => p.2)) := by
  induction l with
  | nil =>
    intro ex found mt
    simp [pass1Spec]
  | cons sk rest ih =>
    intro ex found mt
    rw [List.foldl_cons]
    by_cases hmain : (jsIncludes normText (jsToLower sk.canonicalName)
        && !(found.contains sk.id)) = true
    · have hstep : pass1Step normText (ex, found, mt) sk
          = (ex ++ [sk.canonicalName], found ++ [sk.id], mt ++ [jsToLower sk.canonicalName]) := by
        simp only [pass1Step, hmain, if_true]
      have hspec : pass1Spec normText (sk :: rest) found
          = (sk, jsToLower sk.canonicalName) :: pass1Spec normText rest (found ++ [sk.id]) := by
        simp only [pass1Spec, hmain, if_true]
      rw [hstep, ih, hspec]
      simp [List.append_assoc]
    · cases hal : (sk.aliases.map jsToLower).find?
          (fun a => jsIncludes normText a && !(found.contains sk.id)) with
      | some a =>
        have hstep : pass1Step normText (ex, found, mt) sk
            = (ex ++ [sk.canonicalName], found ++ [sk.id], mt ++ [a]) := by
          simp only [pass1Step, hmain, Bool.false_eq_true, if_false, hal]
        have hspec : pass1Spec normText (sk :: rest) found
            = (sk, a) :: pass1Spec normText rest (found ++ [sk.id]) := by
          simp only [pass1Spec, hmain, Bool.false_eq_true, if_false, hal]
        rw [hstep, ih, hspec]
        simp [List.append_assoc]
      | none =>
        have hstep : pass1Step normText (ex, found, mt) sk = (ex, found, mt) := by
          simp only [pass1Step, hmain, Bool.false_eq_true, if_false, hal]
        have hspec : pass1Spec normText (sk :: rest) found
            = pass1Spec normText rest found := by
          simp only [pass1Spec, hmain, Bool.false_eq_true, if_false, hal]
        rw [hstep, ih, hspec]

theorem pass2_fold (words : List String) :
    ∀ ex found mt unm : List String,
    words.foldl pass2Step (ex, found, mt, unm)
      = (ex ++ (pass2Spec found words).1.map (fun p => p.1.canonicalName),
         found ++ (pass2Spec found words).1.map (fun p => p.1.id),
         mt ++ (pass2Spec found words).1.map (fun p => p.2),
         unm ++ (pass2Spec found words).2) := by
  induction words with
  | nil =>
    intro ex found mt unm
    simp [pass2Spec]
  | cons word rest ih =>
    intro ex found mt unm
    rw [List.foldl_cons]
    by_cases hlen : word.length < 3
    · have hstep : pass2Step (ex, found, mt, unm) word = (ex, found, mt, unm ++ [word]) := by
        simp only [pass2Step, if_pos hlen]
      have hspec : pass2Spec found (word :: rest)
          = ((pass2Spec found rest).1, word :: (pass2Spec found rest).2) := by
        simp only [pass2Spec, if_pos hlen]
      rw [hstep, ih, hspec]
      simp [List.append_assoc]
    · cases hf : findFuzzyMatch word with
      | some sk =>
        by_cases hfound : (!(found.contains sk.id)) = true
        · have hstep : pass2Step (ex, found, mt, unm) word
              = (ex ++ [sk.canonicalName], found ++ [sk.id], mt ++ [word], unm) := by
            simp only [pass2Step, if_neg hlen, hf, hfound, if_true]
          have hspec : pass2Spec found (word :: rest)
              = ((sk, word) :: (pass2Spec (found ++ [sk.id]) rest).1,
                 (pass2Spec (found ++ [sk.id]) rest).2) := by
            simp only [pass2Spec, if_neg hlen, hf, hfound, if_true]
          rw [hstep, ih, hspec]
          simp [List.append_assoc]
        · have hstep : pass2Step (ex, found, mt, unm) word
              = (ex, found, mt, unm ++ [word]) := by
            simp only [pass2Step, if_neg hlen, hf, hfound, Bool.false_eq_true, if_false]
          have hspec : pass2Spec found (word :: rest)
              = ((pass2Spec found rest).1, word :: (pass2Spec found rest).2) := by
            simp only [pass2Spec, if_neg hlen, hf, hfound, Bool.false_eq_true, if_false]
          rw [hstep, ih, hspec]
          simp [List.append_assoc]
      | none =>
        have hstep : pass2Step (ex, found, mt, unm) word
            = (ex, found, mt, unm ++ [word]) := by
          simp only [pass2Step, if_neg hlen, hf]
        have hspec : pass2Spec found (word :: rest)
            = ((pass2Spec found rest).1, word :: (pass2Spec found rest).2) := by
          simp only [pass2Spec, if_neg hlen, hf]
        rw [hstep, ih, hspec]
        simp [List.append_assoc]

/-- Claim-side extraction (amended): pass 1 over the registry, pass 2 over
the whitespace tokens of the whole text, and confidence
`matched / (matched + unmatched)` (0 when nothing matched). -/
def extractSpec (text : String) : SkillExtractionResult :=
  let normText := jsToLower text
  let p1 := pass1Spec normText skills []
  let p2 := pass2Spec (p1.map (fun p => p.1.id)) (jsSplitWs normText)
  let skillsOut := p1.map (fun p => p.1.canonicalName) ++ p2.1.map (fun p => p.1.canonicalName)
  let matched := p1.map (fun p => p.2) ++ p2.1.map (fun p => p.2)
  let unmatched := p2.2
  ⟨skillsOut,
   if matched.isEmpty then 0
   else (matched.length : ℚ) / ((matched.length : ℚ) + (unmatched.length : ℚ)),
   matched, unmatched⟩

/-- C7 (amended): `extractSkillsFromText` equals the claim-side two-pass
extraction in which pass 2 tokenizes the whole text (not the remaining text),
pass-1 hits are found in registry order, and the confidence equals
`matched / (matched + unmatched)`, or 0 when nothing matched. -/
theorem c7_two_pass_extraction (text : String) :
    extractSkillsFromText text = extractSpec text := by
  unfold extractSkillsFromText extractSpec
  dsimp only
  rw [pass1_fold (jsToLower text) skills [] [] []]
  dsimp only
  rw [pass2_fold (jsSplitWs (jsToLower text))]
  simp only [List.nil_append]
  set P1 := pass1Spec (jsToLower text) skills [] with hP1
  set P2 := pass2Spec (P1.map (fun p => p.1.id)) (jsSplitWs (jsToLower text)) with hP2
  set M := P1.map (fun p => p.2) ++ P2.1.map (fun p => p.2) with hM
  set U := P2.2 with hU
  have hconf : (if 0 < M.length then
        min 1 ((M.length : ℚ) / ((M.length : ℚ) + (U.length : ℚ))) else 0)
      = (if M.isEmpty then 0
        else (M.length : ℚ) / ((M.length : ℚ) + (U.length : ℚ))) := by
    by_cases h : 0 < M.length
    · have hne : M.isEmpty = false := by
        rw [Bool.eq_false_iff]
        intro hcon
        rw [isEmpty_iff_len] at hcon
        omega
      rw [if_pos h, hne]
      simp only [Bool.false_eq_true, if_false]
      have hm1 : (1:ℚ) ≤ (M.length : ℚ) := by exact_mod_cast h
      have hu0 : (0:ℚ) ≤ (U.length : ℚ) := by positivity
      rw [min_eq_right]
      rw [div_le_one (by linarith)]
      linarith
    · have hee : M.isEmpty = true := by
        rw [isEmpty_iff_len]
        omega
      rw [if_neg h, hee]
      simp
  rw [hconf]
